import Mathlib

/-!
Shallow embedding of the growth-factor resolution and application pipeline of
`normits_demand/models/forecasting/edge_forecast.py`, with theorems settling
the specification claims about it.

Modelling conventions, used throughout:
* a pandas DataFrame is a list of records (one structure per table shape);
* a NaN cell is `none` (`Option` fields); demand values are rationals;
* `merge(how="left")` against a uniquely keyed right table is `List.find?`
  (first match), matching the source's own de-duplication discipline;
* `merge(how="outer")` keeps the left-join rows and appends unmatched right
  rows;
* `groupby(...).sum()` skips NaN values and drops groups whose key contains
  NaN; the sorting of group keys performed by pandas is omitted, as no result
  proved below depends on the row order of a grouped table.
-/

namespace EdgeForecast

/-- Sum of a column that may contain NaN cells: pandas `.sum()` skips NaN. -/
def osum (l : List (Option ℚ)) : ℚ :=
  (l.map (fun o => o.getD 0)).sum

/-- Splitting a sum over a list by a Boolean predicate. -/
theorem sum_filter_add_sum_filter_not (l : List α) (p : α → Bool) (f : α → ℚ) :
    ((l.filter p).map f).sum + ((l.filter (fun a => !(p a))).map f).sum = (l.map f).sum := by
  induction l with
  | nil => simp
  | cons x xs ih =>
    rw [List.filter_cons, List.filter_cons]
    by_cases hx : p x
    · rw [if_pos hx, if_neg (by simp [hx])]
      simp only [List.map_cons, List.sum_cons]
      rw [← ih]; ring
    · rw [if_neg hx, if_pos (by simp [Bool.eq_false_iff.mpr hx])]
      simp only [List.map_cons, List.sum_cons]
      rw [← ih]; ring

/-- Summing group-wise over a duplicate-free list of keys that covers every
row recovers the overall sum: the `groupby(...).sum()` used throughout the
source never changes a column total. -/
theorem sum_groups {κ : Type} [DecidableEq κ] (key : α → κ) (f : α → ℚ)
    (xs : List α) (ks : List κ) (hnd : ks.Nodup) (hcov : ∀ x ∈ xs, key x ∈ ks) :
    (ks.map (fun k => ((xs.filter (fun x => decide (key x = k))).map f).sum)).sum
      = (xs.map f).sum := by
  induction ks generalizing xs with
  | nil =>
    have hxs : xs = [] := List.eq_nil_iff_forall_not_mem.mpr (fun x hx => by
      simpa using hcov x hx)
    simp [hxs]
  | cons k ks ih =>
    have hnd' : ks.Nodup := hnd.of_cons
    have hknot : k ∉ ks := by
      intro hk; exact (List.nodup_cons.mp hnd).1 hk
    have hcov' : ∀ x ∈ xs.filter (fun x => !(decide (key x = k))), key x ∈ ks := by
      intro x hx
      rcases List.mem_filter.mp hx with ⟨hmem, hne⟩
      rcases List.mem_cons.mp (hcov x hmem) with h | h
      · exfalso
        simp only [Bool.not_eq_true', decide_eq_false_iff_not] at hne
        exact hne h
      · exact h
    have hstep : ∀ k' ∈ ks,
        (xs.filter (fun x => !(decide (key x = k)))).filter (fun x => decide (key x = k'))
          = xs.filter (fun x => decide (key x = k')) := by
      intro k' hk'
      have hk'k : k' ≠ k := fun hh => hknot (hh ▸ hk')
      rw [List.filter_filter]
      apply List.filter_congr
      intro a _
      by_cases hak : key a = k'
      · have hne : decide (key a = k) = false := by
          simp only [decide_eq_false_iff_not]
          intro hh
          exact hk'k (hak ▸ hh ▸ rfl)
        simp [hak, hne, hk'k]
      · simp [hak]
    have hmid : (ks.map (fun k' => ((xs.filter (fun x => decide (key x = k'))).map f).sum)).sum
        = ((xs.filter (fun x => !(decide (key x = k)))).map f).sum := by
      rw [← ih (xs.filter (fun x => !(decide (key x = k)))) hnd' hcov']
      apply congrArg List.sum
      apply List.map_congr_left
      intro k' hk'
      rw [hstep k' hk']
    calc (((k :: ks)).map (fun k' => ((xs.filter (fun x => decide (key x = k'))).map f).sum)).sum
        = ((xs.filter (fun x => decide (key x = k))).map f).sum
            + (ks.map (fun k' => ((xs.filter (fun x => decide (key x = k'))).map f).sum)).sum := by
          simp
      _ = ((xs.filter (fun x => decide (key x = k))).map f).sum
            + ((xs.filter (fun x => !(decide (key x = k)))).map f).sum := by
          rw [hmid]
      _ = (xs.map f).sum := sum_filter_add_sum_filter_not xs _ f

/-- Turning a `flatMap` whose pieces are all singletons into a `map`. -/
theorem flatMap_eq_map_of_singleton {β : Type} (l : List α) (f : α → List β) (g : α → β)
    (h : ∀ a ∈ l, f a = [g a]) : l.flatMap f = l.map g := by
  induction l with
  | nil => rfl
  | cons x xs ih =>
    simp only [List.flatMap_cons, List.map_cons, h x (by simp)]
    rw [ih (fun a ha => h a (by simp [ha]))]
    rfl

/-- In a duplicate-free list the rows equal to a member form a singleton. -/
theorem filter_eq_singleton_of_nodup {α : Type} [DecidableEq α] (l : List α)
    (hnd : l.Nodup) (a : α) (ha : a ∈ l) :
    l.filter (fun x => decide (x = a)) = [a] := by
  induction l with
  | nil => cases ha
  | cons x xs ih =>
    rw [List.filter_cons]
    by_cases hx : x = a
    · rw [if_pos (by simp [hx])]
      have hxs : xs.filter (fun y => decide (y = a)) = [] := by
        rw [List.filter_eq_nil_iff]
        intro b hb
        simp only [decide_eq_true_eq]
        intro hba
        have hmem : x ∈ xs := by rw [hx, ← hba]; exact hb
        exact (List.nodup_cons.mp hnd).1 hmem
      rw [hxs, hx]
    · rw [if_neg (by simp [hx])]
      have ha' : a ∈ xs := by
        rcases List.mem_cons.mp ha with h | h
        · exact absurd h.symm hx
        · exact h
      exact ih (List.nodup_cons.mp hnd).2 ha'

/-! ## Final-assembly matrices (`sum_periods_demand` onwards)

A 24-hour zone-to-zone matrix row: columns `from_model_zone_id`,
`to_model_zone_id`, `Demand`. -/

structure MatRow where
  from_model_zone_id : ℕ
  to_model_zone_id : ℕ
  demand : ℚ
deriving DecidableEq

/-- The merge key `["from_model_zone_id", "to_model_zone_id"]`. -/
def matKey (r : MatRow) : ℕ × ℕ := (r.from_model_zone_id, r.to_model_zone_id)

/-- Rows of a matrix matching one ordered zone pair. -/
def matchRows (mx : List MatRow) (p : ℕ × ℕ) : List MatRow :=
  mx.filter (fun r => decide (matKey r = p))

/-- Demand a matrix holds at an ordered zone pair (for a uniquely keyed matrix:
the row's demand when the pair is present, 0 otherwise). -/
def demandAt (mx : List MatRow) (p : ℕ × ℕ) : ℚ :=
  ((matchRows mx p).map MatRow.demand).sum

/-- `transpose_matrix`: swaps `from_model_zone_id` and `to_model_zone_id`. -/
def transpose_matrix (mx : List MatRow) : List MatRow :=
  mx.map (fun r => ⟨r.to_model_zone_id, r.from_model_zone_id, r.demand⟩)

/-- `itertools.product(range(1, zones + 1), range(1, zones + 1))`: the full
grid of ordered zone pairs used by `expand_matrix` and
`average_two_matrices`. -/
def gridPairs (zones : ℕ) : List (ℕ × ℕ) :=
  (List.range zones).flatMap (fun i => (List.range zones).map (fun j => (i + 1, j + 1)))

/-- `expand_matrix`: outer-merge the full grid with the matrix on the zone
pair, filling missing demand with 0 (unmatched right rows are kept by the
outer merge). -/
def expand_matrix (mx : List MatRow) (zones : ℕ) : List MatRow :=
  (gridPairs zones).flatMap (fun p =>
    match matchRows mx p with
    | [] => [⟨p.1, p.2, 0⟩]
    | ms => ms)
  ++ mx.filter (fun r => decide (matKey r ∉ gridPairs zones))

/-- `average_two_matrices`: outer-merge the full grid with the first matrix
(fill 0), outer-merge the result with the second matrix (fill 0), then take
`(Demand_x + Demand_y) / 2` cell-wise. -/
def average_two_matrices (mx1 mx2 : List MatRow) (zones : ℕ) : List MatRow :=
  ((expand_matrix mx1 zones).flatMap (fun r =>
    match matchRows mx2 (matKey r) with
    | [] => [⟨r.from_model_zone_id, r.to_model_zone_id, (r.demand + 0) / 2⟩]
    | ms => ms.map (fun s =>
        ⟨r.from_model_zone_id, r.to_model_zone_id, (r.demand + s.demand) / 2⟩)))
  ++ (mx2.filter (fun s =>
      decide (matKey s ∉ (expand_matrix mx1 zones).map matKey))).map
      (fun s => ⟨s.from_model_zone_id, s.to_model_zone_id, (0 + s.demand) / 2⟩)

/-- A matrix whose zone-pair keys are unique and lie within `1..zones`. -/
def goodMatrix (mx : List MatRow) (zones : ℕ) : Prop :=
  (mx.map matKey).Nodup
  ∧ ∀ r ∈ mx, 1 ≤ r.from_model_zone_id ∧ r.from_model_zone_id ≤ zones
      ∧ 1 ≤ r.to_model_zone_id ∧ r.to_model_zone_id ≤ zones

instance (mx : List MatRow) (zones : ℕ) : Decidable (goodMatrix mx zones) := by
  unfold goodMatrix; infer_instance

theorem mem_gridPairs (zones : ℕ) (p : ℕ × ℕ) :
    p ∈ gridPairs zones ↔ 1 ≤ p.1 ∧ p.1 ≤ zones ∧ 1 ≤ p.2 ∧ p.2 ≤ zones := by
  cases p with
  | mk a b =>
    simp only [gridPairs, List.mem_flatMap, List.mem_map, List.mem_range, Prod.mk.injEq]
    constructor
    · rintro ⟨i, hi, j, hj, h1, h2⟩
      omega
    · rintro ⟨h1, h2, h3, h4⟩
      exact ⟨a - 1, by omega, b - 1, by omega, by omega, by omega⟩

theorem gridPairs_nodup (zones : ℕ) : (gridPairs zones).Nodup := by
  unfold gridPairs
  rw [List.nodup_flatMap]
  constructor
  · intro i _
    exact (List.nodup_range zones).map (fun x y h => by
      simpa using h)
  · refine (List.pairwise_lt_range zones).imp ?_
    intro i j hij
    simp only [Function.onFun, List.disjoint_left]
    rintro p hp hq
    rcases List.mem_map.mp hp with ⟨a, _, rfl⟩
    rcases List.mem_map.mp hq with ⟨b, _, hb⟩
    have : j + 1 = i + 1 := congrArg Prod.fst hb
    omega

theorem gridPairs_length (zones : ℕ) : (gridPairs zones).length = zones * zones := by
  unfold gridPairs
  rw [List.length_flatMap]
  have h1 : List.map (List.length ∘ fun i => (List.range zones).map (fun j => (i + 1, j + 1)))
      (List.range zones) = List.replicate zones zones := by
    rw [List.eq_replicate_iff]
    constructor
    · simp
    · intro b hb
      rcases List.mem_map.mp hb with ⟨i, _, rfl⟩
      simp [Function.comp]
  rw [h1, List.sum_replicate, smul_eq_mul]

/-- Under unique keys, the rows matching a pair are empty or one row. -/
theorem matchRows_nil_or_singleton (mx : List MatRow) (hnd : (mx.map matKey).Nodup)
    (p : ℕ × ℕ) :
    matchRows mx p = [] ∨ ∃ r, r ∈ mx ∧ matKey r = p ∧ matchRows mx p = [r] := by
  induction mx with
  | nil => left; rfl
  | cons x xs ih =>
    have hnd' : (xs.map matKey).Nodup := (List.nodup_cons.mp (by simpa using hnd)).2
    have hxnot : matKey x ∉ xs.map matKey := (List.nodup_cons.mp (by simpa using hnd)).1
    by_cases hx : matKey x = p
    · right
      refine ⟨x, List.mem_cons_self x xs, hx, ?_⟩
      have hxs : matchRows xs p = [] := by
        unfold matchRows
        rw [List.filter_eq_nil_iff]
        intro b hb
        simp only [decide_eq_true_eq]
        intro hbp
        exact hxnot (hx ▸ hbp ▸ List.mem_map_of_mem matKey hb)
      unfold matchRows at hxs ⊢
      simp [List.filter_cons, hx, hxs]
    · have hcons : matchRows (x :: xs) p = matchRows xs p := by
        unfold matchRows
        simp [List.filter_cons, hx]
      rcases ih hnd' with h | ⟨r, hr, hk, he⟩
      · left; rw [hcons, h]
      · right; exact ⟨r, List.mem_cons_of_mem x hr, hk, by rw [hcons, he]⟩

/-- Looking up the demand of one key in a structurally built full-grid
matrix. -/
theorem demandAt_gridMap (zones : ℕ) (v : ℕ × ℕ → ℚ) (p : ℕ × ℕ)
    (hp : p ∈ gridPairs zones) :
    demandAt ((gridPairs zones).map (fun q => ⟨q.1, q.2, v q⟩)) p = v p := by
  unfold demandAt matchRows
  rw [List.filter_map]
  have hkey : ∀ q : ℕ × ℕ, matKey ⟨q.1, q.2, v q⟩ = q := by
    intro q; rfl
  have : ((gridPairs zones).filter
      ((fun r => decide (matKey r = p)) ∘ (fun q => (⟨q.1, q.2, v q⟩ : MatRow))))
      = (gridPairs zones).filter (fun q => decide (q = p)) := by
    apply List.filter_congr
    intro q _
    simp [Function.comp, hkey q]
  rw [this, filter_eq_singleton_of_nodup _ (gridPairs_nodup zones) p hp]
  simp

/-- Keys of a structurally built full-grid matrix. -/
theorem map_matKey_gridMap (zones : ℕ) (v : ℕ × ℕ → ℚ) :
    ((gridPairs zones).map (fun q => (⟨q.1, q.2, v q⟩ : MatRow))).map matKey
      = gridPairs zones := by
  rw [List.map_map]
  have : (matKey ∘ fun q : ℕ × ℕ => (⟨q.1, q.2, v q⟩ : MatRow)) = id := by
    funext q; rfl
  rw [this, List.map_id]

/-- Structure theorem for `expand_matrix` on a uniquely keyed in-range
matrix: it is exactly the full grid with the source demand at present pairs
and 0 elsewhere. -/
theorem expand_matrix_eq (mx : List MatRow) (zones : ℕ) (h : goodMatrix mx zones) :
    expand_matrix mx zones
      = (gridPairs zones).map (fun p => ⟨p.1, p.2, demandAt mx p⟩) := by
  obtain ⟨hnd, hrange⟩ := h
  unfold expand_matrix
  have hright : mx.filter (fun r => decide (matKey r ∉ gridPairs zones)) = [] := by
    rw [List.filter_eq_nil_iff]
    intro r hr
    simp only [decide_eq_true_eq, not_not]
    exact (mem_gridPairs zones (matKey r)).mpr (hrange r hr)
  rw [hright, List.append_nil]
  apply flatMap_eq_map_of_singleton
  intro p _
  rcases matchRows_nil_or_singleton mx hnd p with hnil | ⟨r, hr, hk, he⟩
  · rw [hnil]
    have : demandAt mx p = 0 := by
      unfold demandAt
      rw [hnil]; rfl
    rw [this]
  · rw [he]
    have hd : demandAt mx p = r.demand := by
      unfold demandAt
      rw [he]; simp
    rw [hd]
    cases r with
    | mk a b d =>
      cases p with
      | mk c e =>
        have h1 : a = c := congrArg Prod.fst hk
        have h2 : b = e := congrArg Prod.snd hk
        subst h1; subst h2; rfl

/-- Structure theorem for `average_two_matrices` on uniquely keyed in-range
matrices: it is the full grid carrying the cell-wise average. -/
theorem average_two_matrices_eq (mx1 mx2 : List MatRow) (zones : ℕ)
    (h1 : goodMatrix mx1 zones) (h2 : goodMatrix mx2 zones) :
    average_two_matrices mx1 mx2 zones
      = (gridPairs zones).map (fun p =>
          ⟨p.1, p.2, (demandAt mx1 p + demandAt mx2 p) / 2⟩) := by
  obtain ⟨hnd2, hrange2⟩ := h2
  unfold average_two_matrices
  rw [expand_matrix_eq mx1 zones h1]
  have hkeys : (((gridPairs zones).map
      (fun p => (⟨p.1, p.2, demandAt mx1 p⟩ : MatRow))).map matKey) = gridPairs zones :=
    map_matKey_gridMap zones _
  have hright : mx2.filter (fun s => decide (matKey s ∉
      ((gridPairs zones).map (fun p => (⟨p.1, p.2, demandAt mx1 p⟩ : MatRow))).map matKey))
      = [] := by
    rw [List.filter_eq_nil_iff]
    intro s hs
    simp only [decide_eq_true_eq, not_not]
    rw [hkeys]
    exact (mem_gridPairs zones (matKey s)).mpr (hrange2 s hs)
  rw [hright, List.map_nil, List.append_nil]
  have hstep : ((gridPairs zones).map
        (fun p => (⟨p.1, p.2, demandAt mx1 p⟩ : MatRow))).flatMap (fun r =>
      match matchRows mx2 (matKey r) with
      | [] => [(⟨r.from_model_zone_id, r.to_model_zone_id, (r.demand + 0) / 2⟩ : MatRow)]
      | ms => ms.map (fun s =>
          ⟨r.from_model_zone_id, r.to_model_zone_id, (r.demand + s.demand) / 2⟩))
      = ((gridPairs zones).map
        (fun p => (⟨p.1, p.2, demandAt mx1 p⟩ : MatRow))).map (fun r =>
          ⟨r.from_model_zone_id, r.to_model_zone_id,
            (r.demand + demandAt mx2 (matKey r)) / 2⟩) := by
    apply flatMap_eq_map_of_singleton
    intro r _
    rcases matchRows_nil_or_singleton mx2 hnd2 (matKey r) with hnil | ⟨s, _, hk, he⟩
    · rw [hnil]
      have : demandAt mx2 (matKey r) = 0 := by
        unfold demandAt; rw [hnil]; rfl
      rw [this]
    · rw [he]
      have hd : demandAt mx2 (matKey r) = s.demand := by
        unfold demandAt; rw [he]; simp
      rw [hd]; rfl
  rw [hstep, List.map_map]
  apply List.map_congr_left
  intro p _
  rfl

/-- Transposing swaps the key at which demand is found. -/
theorem demandAt_transpose (mx : List MatRow) (p : ℕ × ℕ) :
    demandAt (transpose_matrix mx) p = demandAt mx (p.2, p.1) := by
  unfold demandAt matchRows transpose_matrix
  rw [List.filter_map, List.map_map]
  have hpred : (mx.filter ((fun r => decide (matKey r = p)) ∘
        (fun r : MatRow => (⟨r.to_model_zone_id, r.from_model_zone_id, r.demand⟩ : MatRow))))
      = mx.filter (fun r => decide (matKey r = (p.2, p.1))) := by
    apply List.filter_congr
    intro r _
    simp only [Function.comp]
    rw [decide_eq_decide]
    unfold matKey
    cases p with
    | mk a b =>
      simp only [Prod.mk.injEq]
      constructor
      · rintro ⟨u, v⟩; exact ⟨v, u⟩
      · rintro ⟨u, v⟩; exact ⟨v, u⟩
  rw [hpred]
  rfl

theorem goodMatrix_transpose (mx : List MatRow) (zones : ℕ)
    (h : goodMatrix mx zones) : goodMatrix (transpose_matrix mx) zones := by
  obtain ⟨hnd, hrange⟩ := h
  constructor
  · unfold transpose_matrix
    rw [List.map_map]
    have : (matKey ∘ fun r : MatRow =>
        (⟨r.to_model_zone_id, r.from_model_zone_id, r.demand⟩ : MatRow))
        = Prod.swap ∘ matKey := by
      funext r; rfl
    rw [this, ← List.map_map]
    exact hnd.map (fun x y h => Prod.swap_injective h)
  · intro r hr
    rcases List.mem_map.mp hr with ⟨s, hs, rfl⟩
    rcases hrange s hs with ⟨g1, g2, g3, g4⟩
    exact ⟨g3, g4, g1, g2⟩

/-- `fromto_2_from_by_averaging`: assembles the 19 NoRMS output segments.
Six home-based internal segments are averaged with the transpose of their
to-home counterpart; every other segment — including the four non-home-based
internal segments, whose `_T` counterparts exist in the per-period
dictionaries but are discarded here — is only expanded to the full grid. -/
def fromto_2_from_by_averaging (md : String → List MatRow) : List (String × List MatRow) :=
  [("HBEBCA_Int",
      average_two_matrices (md "HBEBCA_Int") (transpose_matrix (md "HBEBCA_Int_T")) 1300),
   ("HBEBNCA_Int",
      average_two_matrices (md "HBEBNCA_Int") (transpose_matrix (md "HBEBNCA_Int_T")) 1300),
   ("NHBEBCA_Int", expand_matrix (md "NHBEBCA_Int") 1300),
   ("NHBEBNCA_Int", expand_matrix (md "NHBEBNCA_Int") 1300),
   ("HBWCA_Int",
      average_two_matrices (md "HBWCA_Int") (transpose_matrix (md "HBWCA_Int_T")) 1300),
   ("HBWNCA_Int",
      average_two_matrices (md "HBWNCA_Int") (transpose_matrix (md "HBWNCA_Int_T")) 1300),
   ("HBOCA_Int",
      average_two_matrices (md "HBOCA_Int") (transpose_matrix (md "HBOCA_Int_T")) 1300),
   ("HBONCA_Int",
      average_two_matrices (md "HBONCA_Int") (transpose_matrix (md "HBONCA_Int_T")) 1300),
   ("NHBOCA_Int", expand_matrix (md "NHBOCA_Int") 1300),
   ("NHBONCA_Int", expand_matrix (md "NHBONCA_Int") 1300),
   ("EBCA_Ext_FM", expand_matrix (md "EBCA_Ext_FM") 1300),
   ("EBCA_Ext_TO", expand_matrix (md "EBCA_Ext_TO") 1300),
   ("EBNCA_Ext", expand_matrix (md "EBNCA_Ext") 1300),
   ("HBWCA_Ext_FM", expand_matrix (md "HBWCA_Ext_FM") 1300),
   ("HBWCA_Ext_TO", expand_matrix (md "HBWCA_Ext_TO") 1300),
   ("HBWNCA_Ext", expand_matrix (md "HBWNCA_Ext") 1300),
   ("OCA_Ext_FM", expand_matrix (md "OCA_Ext_FM") 1300),
   ("OCA_Ext_TO", expand_matrix (md "OCA_Ext_TO") 1300),
   ("ONCA_Ext", expand_matrix (md "ONCA_Ext") 1300)]

/-- The six segment pairs the combiner averages with a transposed
counterpart. -/
def hb_int_pairs : List (String × String) :=
  [("HBEBCA_Int", "HBEBCA_Int_T"), ("HBEBNCA_Int", "HBEBNCA_Int_T"),
   ("HBWCA_Int", "HBWCA_Int_T"), ("HBWNCA_Int", "HBWNCA_Int_T"),
   ("HBOCA_Int", "HBOCA_Int_T"), ("HBONCA_Int", "HBONCA_Int_T")]

/-- C9: full-grid expansion.  For a source matrix with unique keys inside
`1..zones`, `expand_matrix` yields exactly `zones * zones` rows — one per
ordered zone pair, with no duplicate pair — holding the source demand at
every pair present in the source and demand 0 at every absent pair. -/
theorem expand_matrix_full_grid (mx : List MatRow) (zones : ℕ)
    (h : goodMatrix mx zones) :
    (expand_matrix mx zones).length = zones * zones
    ∧ ((expand_matrix mx zones).map matKey).Nodup
    ∧ (∀ p : ℕ × ℕ, p ∈ (expand_matrix mx zones).map matKey
        ↔ 1 ≤ p.1 ∧ p.1 ≤ zones ∧ 1 ≤ p.2 ∧ p.2 ≤ zones)
    ∧ ∀ p : ℕ × ℕ, p ∈ gridPairs zones
        → demandAt (expand_matrix mx zones) p = demandAt mx p := by
  rw [expand_matrix_eq mx zones h]
  refine ⟨?_, ?_, ?_, ?_⟩
  · rw [List.length_map, gridPairs_length]
  · rw [map_matKey_gridMap]
    exact gridPairs_nodup zones
  · intro p
    rw [map_matKey_gridMap]
    exact mem_gridPairs zones p
  · intro p hp
    exact demandAt_gridMap zones _ p hp

/-- Witness for C9 at a concrete one-row matrix and the default 1300
zones. -/
theorem expand_matrix_full_grid_witness :
    goodMatrix [⟨1, 2, 5⟩] 1300
    ∧ (expand_matrix [⟨1, 2, 5⟩] 1300).length = 1300 * 1300
    ∧ demandAt (expand_matrix [⟨1, 2, 5⟩] 1300) (1, 2) = demandAt [⟨1, 2, 5⟩] (1, 2) := by
  have hg : goodMatrix [⟨1, 2, 5⟩] 1300 := by decide
  have hp : ((1 : ℕ), (2 : ℕ)) ∈ gridPairs 1300 :=
    (mem_gridPairs 1300 (1, 2)).mpr (by norm_num)
  exact ⟨hg, (expand_matrix_full_grid [⟨1, 2, 5⟩] 1300 hg).1,
    (expand_matrix_full_grid [⟨1, 2, 5⟩] 1300 hg).2.2.2 (1, 2) hp⟩

/-- C8 (amended): for the six home-based internal segments the combiner
output is the full-grid matrix holding, at every in-range cell, the average
of the from-home demand and the to-home demand of the transposed cell. -/
theorem fromto_averaging_hb_int (md : String → List MatRow) (s sT : String)
    (hs : (s, sT) ∈ hb_int_pairs)
    (h1 : goodMatrix (md s) 1300) (h2 : goodMatrix (md sT) 1300)
    (p : ℕ × ℕ) (hp : p ∈ gridPairs 1300) :
    ∃ m, List.lookup s (fromto_2_from_by_averaging md) = some m
      ∧ demandAt m p = (demandAt (md s) p + demandAt (md sT) (p.2, p.1)) / 2 := by
  have key : ∀ t tT : String,
      goodMatrix (md t) 1300 → goodMatrix (md tT) 1300 →
      demandAt (average_two_matrices (md t) (transpose_matrix (md tT)) 1300) p
        = (demandAt (md t) p + demandAt (md tT) (p.2, p.1)) / 2 := by
    intro t tT ht htT
    rw [average_two_matrices_eq (md t) (transpose_matrix (md tT)) 1300 ht
      (goodMatrix_transpose (md tT) 1300 htT)]
    rw [demandAt_gridMap 1300 _ p hp]
    rw [demandAt_transpose]
  fin_cases hs
  · exact ⟨_, rfl, key _ _ h1 h2⟩
  · exact ⟨_, rfl, key _ _ h1 h2⟩
  · exact ⟨_, rfl, key _ _ h1 h2⟩
  · exact ⟨_, rfl, key _ _ h1 h2⟩
  · exact ⟨_, rfl, key _ _ h1 h2⟩
  · exact ⟨_, rfl, key _ _ h1 h2⟩

/-- Concrete matrix dictionary exercising the averaged pair
`HBEBCA_Int` / `HBEBCA_Int_T`. -/
def mdHBEB : String → List MatRow := fun s =>
  if s = "HBEBCA_Int" then [⟨1, 2, 100⟩]
  else if s = "HBEBCA_Int_T" then [⟨2, 1, 60⟩]
  else []

/-- Witness for C8 (amended): with 100 at (1,2) from-home and 60 at (2,1)
to-home, the combined `HBEBCA_Int` holds (100+60)/2 at (1,2). -/
theorem fromto_averaging_hb_int_witness :
    ("HBEBCA_Int", "HBEBCA_Int_T") ∈ hb_int_pairs
    ∧ goodMatrix (mdHBEB "HBEBCA_Int") 1300
    ∧ goodMatrix (mdHBEB "HBEBCA_Int_T") 1300
    ∧ ((1 : ℕ), (2 : ℕ)) ∈ gridPairs 1300
    ∧ ∃ m, List.lookup "HBEBCA_Int" (fromto_2_from_by_averaging mdHBEB) = some m
        ∧ demandAt m (1, 2)
          = (demandAt (mdHBEB "HBEBCA_Int") (1, 2)
              + demandAt (mdHBEB "HBEBCA_Int_T") (2, 1)) / 2 := by
  have hmem : (("HBEBCA_Int", "HBEBCA_Int_T") : String × String) ∈ hb_int_pairs := by decide
  have hg1 : goodMatrix (mdHBEB "HBEBCA_Int") 1300 := by decide
  have hg2 : goodMatrix (mdHBEB "HBEBCA_Int_T") 1300 := by decide
  have hp : ((1 : ℕ), (2 : ℕ)) ∈ gridPairs 1300 :=
    (mem_gridPairs 1300 (1, 2)).mpr (by norm_num)
  exact ⟨hmem, hg1, hg2, hp,
    fromto_averaging_hb_int mdHBEB "HBEBCA_Int" "HBEBCA_Int_T" hmem hg1 hg2 (1, 2) hp⟩

/-- Concrete matrix dictionary for the non-home-based internal pair
`NHBEBCA_Int` / `NHBEBCA_Int_T`. -/
def mdNHBEB : String → List MatRow := fun s =>
  if s = "NHBEBCA_Int" then [⟨1, 2, 100⟩]
  else if s = "NHBEBCA_Int_T" then [⟨2, 1, 60⟩]
  else []

/-- Counterexample to C8 as stated: `NHBEBCA_Int` is an internal segment with
a to-home counterpart (`NHBEBCA_Int_T`, demand 60 at (2,1)), yet the combiner
only expands the from-home matrix: the combined cell (1,2) holds 100, not
(100+60)/2 = 80. -/
theorem fromto_averaging_counterexample :
    List.lookup "NHBEBCA_Int" (fromto_2_from_by_averaging mdNHBEB)
        = some (expand_matrix (mdNHBEB "NHBEBCA_Int") 1300)
    ∧ mdNHBEB "NHBEBCA_Int_T" = [⟨2, 1, 60⟩]
    ∧ demandAt (expand_matrix (mdNHBEB "NHBEBCA_Int") 1300) (1, 2) = 100
    ∧ (100 : ℚ) ≠ (100 + 60) / 2 := by
  refine ⟨rfl, rfl, ?_, by norm_num⟩
  have hg : goodMatrix (mdNHBEB "NHBEBCA_Int") 1300 := by decide
  have hp : ((1 : ℕ), (2 : ℕ)) ∈ gridPairs 1300 :=
    (mem_gridPairs 1300 (1, 2)).mpr (by norm_num)
  rw [expand_matrix_eq _ 1300 hg, demandAt_gridMap 1300 _ (1, 2) hp]
  norm_num [demandAt, matchRows, matKey, mdNHBEB]

/-! ## Station-to-station matrix rows

One row of the prepared station-to-station matrix.  pandas builds the columns
up incrementally over several merges; here the structure carries every column
from the start, with `none` / `""` defaults until the corresponding stage
fills them (a NaN cell is `none`). -/

structure MxRow where
  from_model_zone_id : ℕ
  to_model_zone_id : ℕ
  from_stn_zone_id : ℕ
  to_stn_zone_id : ℕ
  userclass : ℤ
  distance : Option ℚ
  demand : ℚ
  o_tlc : Option String
  d_tlc : Option String
  flowCatName : Option String
  tag_nondist : Option String
  tag_flow : Option String
  purpose : String
  F : Option ℚ
  R : Option ℚ
  S : Option ℚ
deriving DecidableEq

/-- `assign_purposes` per row: `Purpose` starts as `""` and the nine
userclass cases overwrite it; a userclass outside 1..9 keeps `""`. -/
def purposeOfUserclass (uc : ℤ) : String :=
  if uc = 1 then "Business"
  else if uc = 2 then "Business"
  else if uc = 3 then "Business"
  else if uc = 4 then "Commuting"
  else if uc = 5 then "Commuting"
  else if uc = 6 then "Commuting"
  else if uc = 7 then "Leisure"
  else if uc = 8 then "Leisure"
  else if uc = 9 then "Leisure"
  else ""

/-- `assign_purposes` on the whole matrix. -/
def assign_purposes (mx : List MxRow) : List MxRow :=
  mx.map (fun r => { r with purpose := purposeOfUserclass r.userclass })

/-- One row of the `ticket_type_splits` table: proportions per ticket type
keyed by `(TAG_Flow, Purpose)`. -/
structure TicketSplitRow where
  tag_flow : String
  purpose : String
  F : ℚ
  R : ℚ
  S : ℚ
deriving DecidableEq

/-- The left merge with `ticket_type_splits` on `["TAG_Flow", "Purpose"]`
(run_edge_growth lines 1335-1337); a NaN `TAG_Flow` key matches nothing. -/
def split_lookup (splits : List TicketSplitRow) (tagFlow : Option String)
    (p : String) : Option TicketSplitRow :=
  splits.find? (fun s => decide (tagFlow = some s.tag_flow ∧ p = s.purpose))

/-- Attach the three split proportions (NaN when the key is unmatched). -/
def merge_ticket_splits (splits : List TicketSplitRow) (mx : List MxRow) : List MxRow :=
  mx.map (fun r =>
    match split_lookup splits r.tag_flow r.purpose with
    | some s => { r with F := some s.F, R := some s.R, S := some s.S }
    | none => { r with F := none, R := none, S := none })

/-- `apply_ticket_splits`: multiply each split proportion by the demand; a
NaN proportion stays NaN (it is not turned into 0). -/
def apply_ticket_splits (mx : List MxRow) : List MxRow :=
  mx.map (fun r => { r with
    F := r.F.map (fun x => x * r.demand),
    R := r.R.map (fun x => x * r.demand),
    S := r.S.map (fun x => x * r.demand) })

/-! ## The EDGE growth-factor table -/

/-- One row of the EDGE factor table after the column selection of
`create_factors_for_missing_moira_movements`:
`["ZoneCodeFrom", "ZoneCodeTo", "purpose", "TicketType", "Demand_rate",
"Flag"]`.  `Flag = 1` marks a factor supplied directly by EDGE
(authoritative); `Flag = 0` marks a borrowed (derived) factor. -/
structure FactorRow where
  zoneCodeFrom : String
  zoneCodeTo : String
  purpose : String
  ticketType : String
  demand_rate : Option ℚ
  flag : ℤ
deriving DecidableEq

/-- Line 451: records with NaN growth are removed. -/
def validFactors (tbl : List FactorRow) : List FactorRow :=
  tbl.filter (fun s => s.demand_rate.isSome)

/-- One melted row (`pd.melt` with `value_vars=["F","R","S"]`), after the
renames `O_TLC → ZoneCodeFrom`, `D_TLC → ZoneCodeTo`, `Purpose → purpose`,
`variable → TicketType`, `value → T_Demand`. -/
structure MeltRow where
  from_model_zone_id : ℕ
  to_model_zone_id : ℕ
  from_stn_zone_id : ℕ
  to_stn_zone_id : ℕ
  zoneCodeFrom : Option String
  zoneCodeTo : Option String
  userclass : ℤ
  purpose : String
  ticketType : String
  t_demand : Option ℚ
deriving DecidableEq

def meltCol (tt : String) (v : MxRow → Option ℚ) (mx : List MxRow) : List MeltRow :=
  mx.map (fun r => ⟨r.from_model_zone_id, r.to_model_zone_id, r.from_stn_zone_id,
    r.to_stn_zone_id, r.o_tlc, r.d_tlc, r.userclass, r.purpose, tt, v r⟩)

/-- `pd.melt(...)`: all F rows, then all R rows, then all S rows. -/
def melt (mx : List MxRow) : List MeltRow :=
  meltCol "F" MxRow.F mx ++ meltCol "R" MxRow.R mx ++ meltCol "S" MxRow.S mx

/-- Left merge of a melted row against the factor table on
`["ZoneCodeFrom", "ZoneCodeTo", "TicketType", "purpose"]` (first match; the
augmented table keeps at most one row per key, proved below).  NaN TLC keys
match nothing. -/
def lookup4 (tbl : List FactorRow) (r : MeltRow) : Option FactorRow :=
  tbl.find? (fun s => decide (r.zoneCodeFrom = some s.zoneCodeFrom
    ∧ r.zoneCodeTo = some s.zoneCodeTo
    ∧ r.ticketType = s.ticketType ∧ r.purpose = s.purpose))

/-- The reversed-direction merge of method 2:
`left_on=["ZoneCodeFrom","ZoneCodeTo",...]`,
`right_on=["ZoneCodeTo","ZoneCodeFrom",...]`. -/
def lookup4_rev (tbl : List FactorRow) (r : MeltRow) : Option FactorRow :=
  tbl.find? (fun s => decide (r.zoneCodeFrom = some s.zoneCodeTo
    ∧ r.zoneCodeTo = some s.zoneCodeFrom
    ∧ r.ticketType = s.ticketType ∧ r.purpose = s.purpose))

/-- Movement-level merge on `["ZoneCodeFrom", "ZoneCodeTo", "purpose"]`,
ignoring the ticket type: the fallback search.  `drop_duplicates(...)` with
pandas' keep-first default makes the first match in table order the one
borrowed. -/
def movementLookup (tbl : List FactorRow) (cf ct p : String) : Option FactorRow :=
  tbl.find? (fun s => decide (s.zoneCodeFrom = cf ∧ s.zoneCodeTo = ct ∧ s.purpose = p))

/-- All movement-level matches of one melted row (the zonal audit merge
keeps every match, duplicating the row). -/
def movementMatches (tbl : List FactorRow) (r : MeltRow) : List FactorRow :=
  tbl.filter (fun s => decide (r.zoneCodeFrom = some s.zoneCodeFrom
    ∧ r.zoneCodeTo = some s.zoneCodeTo ∧ r.purpose = s.purpose))

/-- Lines 489-493 of the source: `Internal` is initialised to 0 and the
boolean mask `(from_model_zone_id < 1158) & (to_model_zone_id < 1158)` is
then evaluated as a bare subscript expression with no assignment, so the
flag remains 0 on every row. -/
def internalFlag : ℕ → ℕ → ℤ := fun _ _ => 0

/-- The assignment the surrounding code and its log output evidently intend
(compare the `Flag` assignment pattern at line 737): 1 when both zone ids
are below the internal/external boundary 1158, else 0. -/
def internalFlagIntended (fromZone toZone : ℕ) : ℤ :=
  if fromZone < 1158 ∧ toZone < 1158 then 1 else 0

/-- The factor-table key `(ZoneCodeFrom, ZoneCodeTo, TicketType, purpose)`. -/
structure FKey where
  cf : String
  ct : String
  tt : String
  p : String
deriving DecidableEq

def fkey (s : FactorRow) : FKey :=
  ⟨s.zoneCodeFrom, s.zoneCodeTo, s.ticketType, s.purpose⟩

/-- Key of a melted row, when its TLC columns are not NaN (pandas `groupby`
drops rows whose key contains NaN). -/
def meltKey (r : MeltRow) : Option FKey :=
  match r.zoneCodeFrom, r.zoneCodeTo with
  | some a, some b => some ⟨a, b, r.ticketType, r.purpose⟩
  | _, _ => none

/-- The melted rows whose factor merge produced NaN `Demand_rate`
(`missing_moira`). -/
def missing_rows (mx : List MxRow) (ef : List FactorRow) : List MeltRow :=
  (melt mx).filter (fun r => (lookup4 ef r).isNone)

/-- The borrowed factor records of one call: missing rows are grouped to
their movement/ticket key (grouping drops NaN TLCs), each key is re-merged
against the factor table ignoring the ticket type, and `drop_duplicates`
keeps the first available match.  The record carries the missing ticket
type, the borrowed `Demand_rate` and `Flag = 0`. -/
def borrowed_factors (mx : List MxRow) (ef : List FactorRow) : List FactorRow :=
  ((missing_rows mx ef).filterMap meltKey).dedup.filterMap (fun k =>
    (movementLookup ef k.cf k.ct k.p).map (fun s =>
      ⟨k.cf, k.ct, k.p, k.tt, s.demand_rate, 0⟩))

/-! ## The two audit tables -/

/-- Group key of the substitution audit. -/
structure OtherKey where
  zoneCodeFrom : String
  zoneCodeTo : String
  purpose : String
  missingTicketType : String
  availableTicketType : String
  internal : ℤ
deriving DecidableEq

/-- One grouped row of the substitution audit (`other_tickets_df`). -/
structure OtherRow where
  zoneCodeFrom : String
  zoneCodeTo : String
  purpose : String
  missingTicketType : String
  availableTicketType : String
  internal : ℤ
  t_demand : ℚ
deriving DecidableEq

/-- Group key of the unfactored audit. -/
structure NoFacKey where
  zoneCodeFrom : String
  zoneCodeTo : String
  internal : ℤ
deriving DecidableEq

/-- One grouped row of the unfactored audit (`no_factors_df`). -/
structure NoFacRow where
  zoneCodeFrom : String
  zoneCodeTo : String
  internal : ℤ
  t_demand : ℚ
deriving DecidableEq

/-- `missing_moira_zonal.merge(edgeFactors, on=[From, To, purpose])`: each
missing row is duplicated once per movement-level match; a row with no match
is kept once with NaN `Available_TicketType`. -/
def zonal_pairs (mx : List MxRow) (ef : List FactorRow) :
    List (MeltRow × Option String) :=
  (missing_rows mx ef).flatMap (fun r =>
    match movementMatches ef r with
    | [] => [(r, none)]
    | ss => ss.map (fun s => (r, some s.ticketType)))

/-- The substitution-audit rows appended by one call: pairs with an
available ticket type, grouped on the six-column key (groups whose key holds
NaN are dropped; NaN demand is skipped by the sum). -/
def other_tickets_new (mx : List MxRow) (ef : List FactorRow) : List OtherRow :=
  let rows := (zonal_pairs mx ef).filterMap (fun pr =>
    match pr.1.zoneCodeFrom, pr.1.zoneCodeTo, pr.2 with
    | some a, some b, some att =>
        some ((⟨a, b, pr.1.purpose, pr.1.ticketType, att,
          internalFlag pr.1.from_model_zone_id pr.1.to_model_zone_id⟩ : OtherKey),
          pr.1.t_demand)
    | _, _, _ => none)
  ((rows.map Prod.fst).dedup).map (fun k =>
    ⟨k.zoneCodeFrom, k.zoneCodeTo, k.purpose, k.missingTicketType,
      k.availableTicketType, k.internal,
      osum ((rows.filter (fun x => decide (x.1 = k))).map Prod.snd)⟩)

/-- The unfactored-audit rows appended by one call: pairs with no movement
match at all, grouped by `(ZoneCodeFrom, ZoneCodeTo, Internal)`. -/
def no_factors_new (mx : List MxRow) (ef : List FactorRow) : List NoFacRow :=
  let rows := (zonal_pairs mx ef).filterMap (fun pr =>
    match pr.1.zoneCodeFrom, pr.1.zoneCodeTo, pr.2 with
    | some a, some b, none =>
        some ((⟨a, b,
          internalFlag pr.1.from_model_zone_id pr.1.to_model_zone_id⟩ : NoFacKey),
          pr.1.t_demand)
    | _, _, _ => none)
  ((rows.map Prod.fst).dedup).map (fun k =>
    ⟨k.zoneCodeFrom, k.zoneCodeTo, k.internal,
      osum ((rows.filter (fun x => decide (x.1 = k))).map Prod.snd)⟩)

/-- `create_factors_for_missing_moira_movements`: drop NaN-rate factor rows,
append one borrowed factor per missing movement/ticket key, and append the
two audit blocks to the running audit tables. -/
def create_factors_for_missing_moira_movements (mx : List MxRow)
    (edgeFactors : List FactorRow) (other_tickets_df : List OtherRow)
    (no_factors_df : List NoFacRow) :
    List FactorRow × List OtherRow × List NoFacRow :=
  (validFactors edgeFactors ++ borrowed_factors mx (validFactors edgeFactors),
   other_tickets_df ++ other_tickets_new mx (validFactors edgeFactors),
   no_factors_df ++ no_factors_new mx (validFactors edgeFactors))

/-! ## Growth application -/

/-- One grown row: the columns kept by both growth methods. -/
structure GrownRow where
  from_model_zone_id : ℕ
  to_model_zone_id : ℕ
  from_stn_zone_id : ℕ
  to_stn_zone_id : ℕ
  zoneCodeFrom : Option String
  zoneCodeTo : Option String
  userclass : ℤ
  purpose : String
  ticketType : String
  t_demand : Option ℚ
  n_demand : Option ℚ
deriving DecidableEq

/-- Method-1 rate of one melted row: the rate found on the full key, with
NaN (no match) filled with 1. -/
def method1_rate (tbl : List FactorRow) (r : MeltRow) : ℚ :=
  match lookup4 tbl r with
  | some s => s.demand_rate.getD 1
  | none => 1

/-- `apply_edge_growth_method1`: melt, merge the factors on the full key,
fill NaN rate with 1, multiply. -/
def apply_edge_growth_method1 (mx : List MxRow) (edgeFactors : List FactorRow) :
    List GrownRow :=
  (melt mx).map (fun r =>
    ⟨r.from_model_zone_id, r.to_model_zone_id, r.from_stn_zone_id, r.to_stn_zone_id,
      r.zoneCodeFrom, r.zoneCodeTo, r.userclass, r.purpose, r.ticketType,
      r.t_demand, r.t_demand.map (fun x => x * method1_rate edgeFactors r)⟩)

/-- pandas `.mean(axis=1)` over the two direction columns: a NaN entry is
skipped, so a single present side is returned unhalved; only when both sides
are NaN does the subsequent `fillna(1)` apply. -/
def mean_skipna (a b : Option ℚ) : Option ℚ :=
  match a, b with
  | some x, some y => some ((x + y) / 2)
  | some x, none => some x
  | none, some y => some y
  | none, none => none

/-- Method-2 rate of one melted row: skip-NaN mean of the forward and
reverse direction rates, then `fillna(1)`. -/
def method2_rate (tbl : List FactorRow) (r : MeltRow) : ℚ :=
  (mean_skipna ((lookup4 tbl r).bind FactorRow.demand_rate)
    ((lookup4_rev tbl r).bind FactorRow.demand_rate)).getD 1

/-- `apply_edge_growth_method2`: melt, merge the factors in both directions,
average the two rate columns with pandas' skip-NaN mean, fill NaN with 1,
multiply. -/
def apply_edge_growth_method2 (mx : List MxRow) (edgeFactors : List FactorRow) :
    List GrownRow :=
  (melt mx).map (fun r =>
    ⟨r.from_model_zone_id, r.to_model_zone_id, r.from_stn_zone_id, r.to_stn_zone_id,
      r.zoneCodeFrom, r.zoneCodeTo, r.userclass, r.purpose, r.ticketType,
      r.t_demand, r.t_demand.map (fun x => x * method2_rate edgeFactors r)⟩)

/-- One row of the zone-to-zone result of a segment. -/
structure ZoneRow where
  from_model_zone_id : ℕ
  to_model_zone_id : ℕ
  t_demand : ℚ
  n_demand : ℚ
deriving DecidableEq

def zoneKey (g : GrownRow) : ℕ × ℕ := (g.from_model_zone_id, g.to_model_zone_id)

/-- run_edge_growth lines 1356-1364:
`groupby(["from_model_zone_id", "to_model_zone_id"])[["T_Demand",
"N_Demand"]].sum()`. -/
def zone2zone (g : List GrownRow) : List ZoneRow :=
  ((g.map zoneKey).dedup).map (fun k =>
    ⟨k.1, k.2,
      osum ((g.filter (fun x => decide (zoneKey x = k))).map GrownRow.t_demand),
      osum ((g.filter (fun x => decide (zoneKey x = k))).map GrownRow.n_demand)⟩)

/-! ## Properties of the factor resolver -/

theorem osum_eq_zero_of_all_none (l : List (Option ℚ)) (h : ∀ o ∈ l, o = none) :
    osum l = 0 := by
  induction l with
  | nil => rfl
  | cons x xs ih =>
    unfold osum at ih ⊢
    simp only [List.map_cons, List.sum_cons]
    rw [h x (by simp), ih (fun o ho => h o (by simp [ho]))]
    simp

/-- The key-level factor lookup that every merge on the full four-column key
performs (first match in table order). -/
def factorLookup (tbl : List FactorRow) (k : FKey) : Option FactorRow :=
  tbl.find? (fun s => decide (fkey s = k))

/-- A melted row with non-NaN TLCs is looked up exactly at its key. -/
theorem lookup4_eq_factorLookup (tbl : List FactorRow) (m : MeltRow) (k : FKey)
    (hk : meltKey m = some k) : lookup4 tbl m = factorLookup tbl k := by
  have hfun : (fun s : FactorRow => decide (m.zoneCodeFrom = some s.zoneCodeFrom
      ∧ m.zoneCodeTo = some s.zoneCodeTo
      ∧ m.ticketType = s.ticketType ∧ m.purpose = s.purpose))
      = (fun s : FactorRow => decide (fkey s = k)) := by
    funext s
    rw [decide_eq_decide]
    unfold meltKey at hk
    cases hcf : m.zoneCodeFrom with
    | none => rw [hcf] at hk; cases hk
    | some a =>
      cases hct : m.zoneCodeTo with
      | none => rw [hcf, hct] at hk; cases hk
      | some b =>
        rw [hcf, hct] at hk
        have hk' : (⟨a, b, m.ticketType, m.purpose⟩ : FKey) = k := by
          injection hk
        subst hk'
        unfold fkey
        simp only [FKey.mk.injEq, Option.some.injEq]
        constructor
        · rintro ⟨h1, h2, h3, h4⟩
          exact ⟨h1.symm, h2.symm, h3.symm, h4.symm⟩
        · rintro ⟨h1, h2, h3, h4⟩
          exact ⟨h1.symm, h2.symm, h3.symm, h4.symm⟩
  unfold lookup4 factorLookup
  rw [hfun]

/-- In a table with unique keys, the merge finds exactly the member row. -/
theorem factorLookup_eq_of_nodup (tbl : List FactorRow) :
    ∀ (_ : (tbl.map fkey).Nodup) (r : FactorRow) (_ : r ∈ tbl),
    factorLookup tbl (fkey r) = some r := by
  induction tbl with
  | nil => intro _ r hr; cases hr
  | cons s ts ih =>
    intro hnd r hr
    unfold factorLookup
    by_cases hs : fkey s = fkey r
    · have heq : s = r :=
        List.inj_on_of_nodup_map hnd (List.mem_cons_self s ts) hr hs
      rw [List.find?_cons_of_pos ts (by simp [hs])]
      rw [heq]
    · rw [List.find?_cons_of_neg ts (by simp [hs])]
      have hr' : r ∈ ts := by
        rcases List.mem_cons.mp hr with h | h
        · exact absurd (show fkey s = fkey r from by rw [h]) hs
        · exact h
      exact ih (List.nodup_cons.mp (by simpa using hnd)).2 r hr'

/-- Each borrowed record's key is the missing key it was built for. -/
theorem borrowed_mem_elim (mx : List MxRow) (ef : List FactorRow) (x : FactorRow)
    (hx : x ∈ borrowed_factors mx ef) :
    x.flag = 0
    ∧ ∃ k, fkey x = k
      ∧ (∃ m ∈ missing_rows mx ef, meltKey m = some k)
      ∧ ∃ s, movementLookup ef k.cf k.ct k.p = some s
        ∧ x = ⟨k.cf, k.ct, k.p, k.tt, s.demand_rate, 0⟩ := by
  unfold borrowed_factors at hx
  rcases List.mem_filterMap.mp hx with ⟨k, hk, hg⟩
  cases hml : movementLookup ef k.cf k.ct k.p with
  | none => rw [hml] at hg; cases hg
  | some s =>
    rw [hml] at hg
    injection hg with hg
    have hkey : fkey x = k := by rw [← hg]; rfl
    have hkmem : k ∈ (missing_rows mx ef).filterMap meltKey :=
      List.mem_dedup.mp hk
    rcases List.mem_filterMap.mp hkmem with ⟨m, hm, hmk⟩
    exact ⟨by rw [← hg], k, hkey, ⟨m, hm, hmk⟩, s, hml, hg.symm⟩

/-- Keys of a key-indexed `filterMap` form a sublist of the key list. -/
theorem map_fkey_filterMap_sublist (ks : List FKey) (g : FKey → Option FactorRow)
    (hg : ∀ k x, g k = some x → fkey x = k) :
    ((ks.filterMap g).map fkey).Sublist ks := by
  induction ks with
  | nil => simp
  | cons k ks ih =>
    rw [List.filterMap_cons]
    cases h : g k with
    | none => exact ih.cons k
    | some x =>
      rw [List.map_cons, hg k x h]
      exact ih.cons₂ k

/-- At most one borrowed factor per missing key. -/
theorem borrowed_keys_nodup (mx : List MxRow) (ef : List FactorRow) :
    ((borrowed_factors mx ef).map fkey).Nodup := by
  unfold borrowed_factors
  refine (map_fkey_filterMap_sublist _ _ ?_).nodup (List.nodup_dedup _)
  intro k x hx
  cases h : movementLookup ef k.cf k.ct k.p with
  | none => rw [h] at hx; cases hx
  | some s =>
    rw [h] at hx
    injection hx with hx
    rw [← hx]
    rfl

/-- A borrowed record's key is absent from the table it was borrowed from:
it was built for a key whose direct merge found no factor. -/
theorem borrowed_key_fresh (mx : List MxRow) (ef : List FactorRow) (x : FactorRow)
    (hx : x ∈ borrowed_factors mx ef) : fkey x ∉ ef.map fkey := by
  rcases borrowed_mem_elim mx ef x hx with ⟨-, k, hkey, ⟨m, hm, hmk⟩, -⟩
  rw [hkey]
  intro hmem
  rcases List.mem_map.mp hmem with ⟨q, hq, hqk⟩
  have hmiss : (lookup4 ef m).isNone = true := by
    unfold missing_rows at hm
    exact (List.mem_filter.mp hm).2
  have hnone : lookup4 ef m = none := by
    cases hl : lookup4 ef m with
    | none => rfl
    | some y => rw [hl] at hmiss; cases hmiss
  rw [lookup4_eq_factorLookup ef m k hmk] at hnone
  unfold factorLookup at hnone
  rw [List.find?_eq_none] at hnone
  exact hnone q hq (by simp [hqk])

/-- A borrowed record copies a present (non-NaN) rate. -/
theorem borrowed_rate_isSome (mx : List MxRow) (ef : List FactorRow)
    (hef : ∀ s ∈ ef, s.demand_rate.isSome = true) (x : FactorRow)
    (hx : x ∈ borrowed_factors mx ef) : x.demand_rate.isSome = true := by
  rcases borrowed_mem_elim mx ef x hx with ⟨-, k, -, -, s, hs, hxe⟩
  have hsmem : s ∈ ef := List.mem_of_find?_eq_some hs
  rw [hxe]
  exact hef s hsmem

/-- Melting is permutation-stable. -/
theorem melt_perm (mx mx' : List MxRow) (h : mx.Perm mx') :
    (melt mx).Perm (melt mx') := by
  unfold melt meltCol
  exact ((h.map _).append (h.map _)).append (h.map _)

/-- The borrowed block is (up to order) independent of the order of the
ticket records. -/
theorem borrowed_factors_perm (mx mx' : List MxRow) (ef : List FactorRow)
    (h : mx.Perm mx') :
    (borrowed_factors mx ef).Perm (borrowed_factors mx' ef) := by
  unfold borrowed_factors missing_rows
  exact ((((melt_perm mx mx' h).filter _).filterMap _).dedup).filterMap _

/-! ## The factor table across iterations -/

/-- One inner-loop table update of `run_edge_growth` (line 1341-1347): the
factor table is reassigned to the first component of
`create_factors_for_missing_moira_movements`. -/
def augment_step (t : List FactorRow) (mx : List MxRow) : List FactorRow :=
  (create_factors_for_missing_moira_movements mx t [] []).1

/-- The factor table after a sequence of period/segment iterations. -/
def augment_over (mxs : List (List MxRow)) (tbl : List FactorRow) : List FactorRow :=
  mxs.foldl augment_step tbl

theorem augment_step_eq (t : List FactorRow) (mx : List MxRow) :
    augment_step t mx = validFactors t ++ borrowed_factors mx (validFactors t) := rfl

theorem validFactors_validFactors (t : List FactorRow) :
    validFactors (validFactors t) = validFactors t := by
  apply List.filter_eq_self.mpr
  intro s hs
  exact (List.mem_filter.mp hs).2

theorem mem_validFactors_isSome (t : List FactorRow) (s : FactorRow)
    (hs : s ∈ validFactors t) : s.demand_rate.isSome = true :=
  (List.mem_filter.mp hs).2

/-- An updated table has no NaN rates, so the next iteration's NaN filter
leaves it unchanged. -/
theorem augment_step_stable (t : List FactorRow) (mx : List MxRow) :
    validFactors (augment_step t mx) = augment_step t mx := by
  rw [augment_step_eq]
  unfold validFactors
  rw [List.filter_append]
  congr 1
  · exact validFactors_validFactors t
  · apply List.filter_eq_self.mpr
    intro x hx
    exact borrowed_rate_isSome mx (validFactors t)
      (fun s hs => mem_validFactors_isSome t s hs) x hx

/-- One update step preserves unique keying of the table. -/
theorem augment_step_keys_nodup (t : List FactorRow) (mx : List MxRow)
    (hnd : ((validFactors t).map fkey).Nodup) :
    ((augment_step t mx).map fkey).Nodup := by
  rw [augment_step_eq, List.map_append]
  apply List.Nodup.append hnd (borrowed_keys_nodup mx (validFactors t))
  intro k hk1 hk2
  rcases List.mem_map.mp hk2 with ⟨x, hx, hxk⟩
  exact borrowed_key_fresh mx (validFactors t) x hx (hxk ▸ hk1)

/-- Invariant carried over the remaining iterations: the table stays
NaN-free and uniquely keyed, keeps every row of the base set `B`, and every
row is either a base row or carries a key absent from `B`. -/
theorem augment_fold_inv (B : List FactorRow) (mxs : List (List MxRow)) :
    ∀ T : List FactorRow,
    validFactors T = T → (T.map fkey).Nodup → B ⊆ T
    → (∀ s ∈ T, s ∈ B ∨ ∀ q ∈ B, fkey q ≠ fkey s)
    → validFactors (mxs.foldl augment_step T) = mxs.foldl augment_step T
      ∧ ((mxs.foldl augment_step T).map fkey).Nodup
      ∧ B ⊆ mxs.foldl augment_step T
      ∧ ∀ s ∈ mxs.foldl augment_step T, s ∈ B ∨ ∀ q ∈ B, fkey q ≠ fkey s := by
  induction mxs with
  | nil =>
    intro T h1 h2 h3 h4
    exact ⟨h1, h2, h3, h4⟩
  | cons mx mxs ih =>
    intro T h1 h2 h3 h4
    rw [List.foldl_cons]
    apply ih
    · exact augment_step_stable T mx
    · apply augment_step_keys_nodup
      rw [h1]
      exact h2
    · intro b hb
      rw [augment_step_eq]
      apply List.mem_append_left
      rw [h1]
      exact h3 hb
    · intro s hs
      rw [augment_step_eq] at hs
      rcases List.mem_append.mp hs with h | h
      · rw [h1] at h
        exact h4 s h
      · right
        intro q hq hcon
        have hfresh := borrowed_key_fresh mx (validFactors T) s h
        rw [h1] at hfresh
        exact hfresh (hcon ▸ List.mem_map_of_mem fkey (h3 hq))

/-- C5: authoritative precedence.  Starting from a uniquely keyed factor
table, after the first iteration's update and any further sequence of
updates, the lookup of an authoritative (Flag = 1) row's key still returns
exactly that row — no borrowed record replaces or shadows it — and every
row of the final table is either an original row or carries a key that had
no factor (in particular no authoritative factor) in the original table. -/
theorem authoritative_precedence (tbl : List FactorRow) (mx0 : List MxRow)
    (mxs : List (List MxRow))
    (hnd : ((validFactors tbl).map fkey).Nodup)
    (r : FactorRow) (hr : r ∈ validFactors tbl) (hflag : r.flag = 1) :
    factorLookup (augment_over (mx0 :: mxs) tbl) (fkey r) = some r
    ∧ (∀ m : MeltRow, meltKey m = some (fkey r)
        → lookup4 (augment_over (mx0 :: mxs) tbl) m = some r)
    ∧ ∀ s ∈ augment_over (mx0 :: mxs) tbl, s.flag = 0
        → s ∈ validFactors tbl ∨ ∀ q ∈ validFactors tbl, fkey q ≠ fkey s := by
  have hT0eq : augment_over (mx0 :: mxs) tbl
      = mxs.foldl augment_step (augment_step tbl mx0) := by
    unfold augment_over
    rw [List.foldl_cons]
  have h1 : validFactors (augment_step tbl mx0) = augment_step tbl mx0 :=
    augment_step_stable tbl mx0
  have h2 : ((augment_step tbl mx0).map fkey).Nodup :=
    augment_step_keys_nodup tbl mx0 hnd
  have h3 : validFactors tbl ⊆ augment_step tbl mx0 := by
    intro b hb
    rw [augment_step_eq]
    exact List.mem_append_left _ hb
  have h4 : ∀ s ∈ augment_step tbl mx0,
      s ∈ validFactors tbl ∨ ∀ q ∈ validFactors tbl, fkey q ≠ fkey s := by
    intro s hs
    rw [augment_step_eq] at hs
    rcases List.mem_append.mp hs with h | h
    · exact Or.inl h
    · right
      intro q hq hcon
      exact borrowed_key_fresh mx0 (validFactors tbl) s h
        (hcon ▸ List.mem_map_of_mem fkey hq)
  obtain ⟨g1, g2, g3, g4⟩ :=
    augment_fold_inv (validFactors tbl) mxs (augment_step tbl mx0) h1 h2 h3 h4
  rw [hT0eq]
  refine ⟨?_, ?_, ?_⟩
  · exact factorLookup_eq_of_nodup _ g2 r (g3 hr)
  · intro m hm
    rw [lookup4_eq_factorLookup _ m (fkey r) hm]
    exact factorLookup_eq_of_nodup _ g2 r (g3 hr)
  · intro s hs _
    exact g4 s hs

/-- C4 (amended): fallback resolution.  Every missing movement/ticket key
resolves to exactly one borrowed factor (unique keys in the borrowed block);
its rate is the first movement-level match in factor-table order; and the
outcome is stable under any reordering of the ticket records — but, as the
counterexample shows, not under reordering of the factor table itself. -/
theorem fallback_resolution (tbl : List FactorRow) (mx mx' : List MxRow)
    (hperm : mx.Perm mx') :
    ((borrowed_factors mx (validFactors tbl)).map fkey).Nodup
    ∧ (∀ b ∈ borrowed_factors mx (validFactors tbl),
        b.flag = 0
        ∧ ∃ s, movementLookup (validFactors tbl) b.zoneCodeFrom b.zoneCodeTo b.purpose
              = some s
          ∧ b.demand_rate = s.demand_rate)
    ∧ (borrowed_factors mx (validFactors tbl)).Perm
        (borrowed_factors mx' (validFactors tbl)) := by
  refine ⟨borrowed_keys_nodup mx (validFactors tbl), ?_,
    borrowed_factors_perm mx mx' (validFactors tbl) hperm⟩
  intro b hb
  rcases borrowed_mem_elim mx (validFactors tbl) b hb with ⟨hfl, k, hkey, -, s, hs, hbe⟩
  refine ⟨hfl, s, ?_, by rw [hbe]⟩
  rw [hbe]
  exact hs

/-! ## Concrete instances for the factor-resolution claims -/

/-- Factor table with one forward factor A→B (rate 1.2) and no reverse
factor. -/
def tblC1 : List FactorRow :=
  [{ zoneCodeFrom := "A", zoneCodeTo := "B", purpose := "Business",
     ticketType := "F", demand_rate := some (6/5), flag := 1 }]

/-- A melted Full-ticket record A→B with demand 10. -/
def rC1 : MeltRow :=
  { from_model_zone_id := 1, to_model_zone_id := 2, from_stn_zone_id := 3,
    to_stn_zone_id := 4, zoneCodeFrom := some "A", zoneCodeTo := some "B",
    userclass := 1, purpose := "Business", ticketType := "F", t_demand := some 10 }

/-- The matrix row melting to `rC1` plus empty R and S records. -/
def mxC1 : MxRow :=
  { from_model_zone_id := 1, to_model_zone_id := 2, from_stn_zone_id := 3,
    to_stn_zone_id := 4, userclass := 1, distance := none, demand := 10,
    o_tlc := some "A", d_tlc := some "B", flowCatName := none,
    tag_nondist := none, tag_flow := none, purpose := "Business",
    F := some 10, R := none, S := none }

/-- C1 (amended): Method-2 rate resolution.  The applied rate is the pandas
skip-NaN mean of the forward and reverse factors: both present — their
average; exactly one present — that factor unchanged (the missing side is
excluded from the average, not defaulted to 1.0); neither present — 1.0.
Each output demand is the input demand times the resolved rate. -/
theorem method2_rate_resolution (tbl : List FactorRow) (mx : List MxRow)
    (r : MeltRow) (a b : ℚ) :
    ((lookup4 tbl r).bind FactorRow.demand_rate = some a
      → (lookup4_rev tbl r).bind FactorRow.demand_rate = some b
      → method2_rate tbl r = (a + b) / 2)
    ∧ ((lookup4 tbl r).bind FactorRow.demand_rate = some a
      → (lookup4_rev tbl r).bind FactorRow.demand_rate = none
      → method2_rate tbl r = a)
    ∧ ((lookup4 tbl r).bind FactorRow.demand_rate = none
      → (lookup4_rev tbl r).bind FactorRow.demand_rate = some b
      → method2_rate tbl r = b)
    ∧ ((lookup4 tbl r).bind FactorRow.demand_rate = none
      → (lookup4_rev tbl r).bind FactorRow.demand_rate = none
      → method2_rate tbl r = 1)
    ∧ (apply_edge_growth_method2 mx tbl).map GrownRow.n_demand
        = (melt mx).map (fun m => m.t_demand.map (fun x => x * method2_rate tbl m)) := by
  refine ⟨?_, ?_, ?_, ?_, ?_⟩
  · intro hf hb
    unfold method2_rate
    rw [hf, hb]
    rfl
  · intro hf hb
    unfold method2_rate
    rw [hf, hb]
    rfl
  · intro hf hb
    unfold method2_rate
    rw [hf, hb]
    rfl
  · intro hf hb
    unfold method2_rate
    rw [hf, hb]
    rfl
  · unfold apply_edge_growth_method2
    rw [List.map_map]
    rfl

/-- Witness for C1 (amended): forward factor 6/5 present, reverse absent —
the resolved rate is 6/5 itself. -/
theorem method2_rate_resolution_witness :
    (lookup4 tblC1 rC1).bind FactorRow.demand_rate = some (6/5)
    ∧ (lookup4_rev tblC1 rC1).bind FactorRow.demand_rate = none
    ∧ method2_rate tblC1 rC1 = 6/5 := by
  have hf : (lookup4 tblC1 rC1).bind FactorRow.demand_rate = some (6/5) := rfl
  have hb : (lookup4_rev tblC1 rC1).bind FactorRow.demand_rate = none := rfl
  exact ⟨hf, hb, (method2_rate_resolution tblC1 [] rC1 (6/5) 0).2.1 hf hb⟩

/-- Counterexample to C1 as stated: with forward factor 1.2 = 6/5 and no
reverse factor, the code applies rate 6/5 (demand 10 → 12), not the claimed
average (6/5 + 1)/2 = 1.1 (which would give 11). -/
theorem method2_missing_side_counterexample :
    (apply_edge_growth_method2 [mxC1] tblC1).map GrownRow.n_demand
        = [some (10 * (6/5)), none, none]
    ∧ (10 : ℚ) * (6/5) = 12
    ∧ (10 : ℚ) * ((6/5 + 1) / 2) = 11
    ∧ (12 : ℚ) ≠ 11 :=
  ⟨rfl, by norm_num, by norm_num, by norm_num⟩

/-- An all-internal movement (both zone ids 1 < 1158) whose factor is
entirely missing. -/
def mxC2 : MxRow :=
  { from_model_zone_id := 1, to_model_zone_id := 1, from_stn_zone_id := 3,
    to_stn_zone_id := 4, userclass := 1, distance := none, demand := 10,
    o_tlc := some "AAA", d_tlc := some "BBB", flowCatName := none,
    tag_nondist := none, tag_flow := none, purpose := "Business",
    F := some 5, R := some 3, S := some 2 }

/-- C2: the internal/external flag is never set.  A missing-factor record
with both zone ids below 1158 lands in the unfactored audit with
`Internal = 0`, because the masked assignment at source lines 490-493 has no
right-hand side; the evidently intended flag for this record is 1. -/
theorem internal_flag_code_bug :
    ((create_factors_for_missing_moira_movements [mxC2] [] [] []).2.2).map
        NoFacRow.internal = [0]
    ∧ mxC2.from_model_zone_id < 1158 ∧ mxC2.to_model_zone_id < 1158
    ∧ internalFlag mxC2.from_model_zone_id mxC2.to_model_zone_id = 0
    ∧ internalFlagIntended mxC2.from_model_zone_id mxC2.to_model_zone_id = 1 :=
  ⟨rfl, by decide, by decide, rfl, by decide⟩

/-- Full-ticket factor A→B, rate 6/5. -/
def fFullC4 : FactorRow :=
  { zoneCodeFrom := "A", zoneCodeTo := "B", purpose := "Business",
    ticketType := "F", demand_rate := some (6/5), flag := 1 }

/-- Season-ticket factor A→B, rate 2. -/
def fSeasonC4 : FactorRow :=
  { zoneCodeFrom := "A", zoneCodeTo := "B", purpose := "Business",
    ticketType := "S", demand_rate := some 2, flag := 1 }

/-- A movement with demand on all three ticket types; its Full and Season
records have factors, its Reduced record does not. -/
def mxC4 : MxRow :=
  { from_model_zone_id := 1, to_model_zone_id := 2, from_stn_zone_id := 3,
    to_stn_zone_id := 4, userclass := 1, distance := none, demand := 7,
    o_tlc := some "A", d_tlc := some "B", flowCatName := none,
    tag_nondist := none, tag_flow := none, purpose := "Business",
    F := some 1, R := some 4, S := some 2 }

/-- Counterexample to C4 as stated: the same factor set in two different
orders borrows two different rates for the missing Reduced record — the
fallback is not invariant under reordering of the factor table. -/
theorem fallback_order_counterexample :
    borrowed_factors [mxC4] (validFactors [fFullC4, fSeasonC4])
        = [{ zoneCodeFrom := "A", zoneCodeTo := "B", purpose := "Business",
             ticketType := "R", demand_rate := some (6/5), flag := 0 }]
    ∧ borrowed_factors [mxC4] (validFactors [fSeasonC4, fFullC4])
        = [{ zoneCodeFrom := "A", zoneCodeTo := "B", purpose := "Business",
             ticketType := "R", demand_rate := some 2, flag := 0 }]
    ∧ [fFullC4, fSeasonC4].Perm [fSeasonC4, fFullC4]
    ∧ (6/5 : ℚ) ≠ 2 :=
  ⟨rfl, rfl, List.Perm.swap fSeasonC4 fFullC4 [], by norm_num⟩

/-- Witness for C4 (amended) at a concrete movement and table. -/
theorem fallback_resolution_witness :
    [mxC4].Perm [mxC4]
    ∧ ((borrowed_factors [mxC4] (validFactors [fFullC4, fSeasonC4])).map fkey).Nodup :=
  ⟨List.Perm.refl _,
    (fallback_resolution [fFullC4, fSeasonC4] [mxC4] [mxC4] (List.Perm.refl _)).1⟩

/-- Authoritative factor used by the C5 witness. -/
def fW5 : FactorRow :=
  { zoneCodeFrom := "A", zoneCodeTo := "B", purpose := "Business",
    ticketType := "F", demand_rate := some 2, flag := 1 }

/-- The matrix whose Reduced and Season records borrow from `fW5`. -/
def mxW5 : MxRow :=
  { from_model_zone_id := 1, to_model_zone_id := 2, from_stn_zone_id := 3,
    to_stn_zone_id := 4, userclass := 1, distance := none, demand := 7,
    o_tlc := some "A", d_tlc := some "B", flowCatName := none,
    tag_nondist := none, tag_flow := none, purpose := "Business",
    F := some 1, R := some 4, S := some 2 }

/-- Witness for C5 at a one-row authoritative table and one iteration. -/
theorem authoritative_precedence_witness :
    ((validFactors [fW5]).map fkey).Nodup
    ∧ fW5 ∈ validFactors [fW5]
    ∧ fW5.flag = 1
    ∧ factorLookup (augment_over [[mxW5]] [fW5]) (fkey fW5) = some fW5 := by
  have h1 : ((validFactors [fW5]).map fkey).Nodup := by decide
  have h2 : fW5 ∈ validFactors [fW5] := by simp [validFactors, fW5]
  exact ⟨h1, h2, rfl,
    (authoritative_precedence [fW5] [mxW5] [] h1 fW5 h2 rfl).1⟩

/-- A zonal-pair's left component is one of the missing rows. -/
theorem zonal_pairs_fst_mem (mx : List MxRow) (ef : List FactorRow)
    (pr : MeltRow × Option String) (hpr : pr ∈ zonal_pairs mx ef) :
    pr.1 ∈ missing_rows mx ef := by
  unfold zonal_pairs at hpr
  rcases List.mem_flatMap.mp hpr with ⟨r, hr, hmem⟩
  cases hmm : movementMatches ef r with
  | nil =>
    rw [hmm] at hmem
    have := List.mem_singleton.mp hmem
    rw [this]
    exact hr
  | cons s ss =>
    rw [hmm] at hmem
    rcases List.mem_map.mp hmem with ⟨s', _, rfl⟩
    exact hr

/-- C7 (amended): null ticket splits are preserved as nulls, not zeros; a
null-demand ticket row can reach the audits only through the missing-factor
path, where its null demand contributes zero to the audit demand totals; and
when its factor resolves, its output demand is null (contributing nothing to
the segment totals), not a zero-demand record. -/
theorem null_split_propagation (mx : List MxRow) (tbl : List FactorRow)
    (h : ∀ m ∈ melt mx, m.t_demand = none) :
    (∀ q : MxRow, q.F = none → (apply_ticket_splits [q]).map MxRow.F = [none])
    ∧ (∀ row ∈ other_tickets_new mx (validFactors tbl), row.t_demand = 0)
    ∧ (∀ row ∈ no_factors_new mx (validFactors tbl), row.t_demand = 0)
    ∧ (apply_edge_growth_method1 mx tbl).map GrownRow.n_demand
        = (melt mx).map (fun _ => (none : Option ℚ)) := by
  have hpairnone : ∀ pr ∈ zonal_pairs mx (validFactors tbl),
      pr.1.t_demand = (none : Option ℚ) := by
    intro pr hpr
    have hfst := zonal_pairs_fst_mem mx (validFactors tbl) pr hpr
    exact h pr.1 (List.mem_of_mem_filter hfst)
  refine ⟨?_, ?_, ?_, ?_⟩
  · intro q hq
    simp [apply_ticket_splits, hq]
  · intro row hrow
    unfold other_tickets_new at hrow
    rcases List.mem_map.mp hrow with ⟨k, _, rfl⟩
    show osum _ = 0
    apply osum_eq_zero_of_all_none
    intro o ho
    rcases List.mem_map.mp ho with ⟨x, hx, rfl⟩
    rcases List.mem_filterMap.mp (List.mem_of_mem_filter hx) with ⟨pr, hpr, hmk⟩
    cases hcf : pr.1.zoneCodeFrom with
    | none => rw [hcf] at hmk; cases hmk
    | some a =>
      cases hct : pr.1.zoneCodeTo with
      | none => rw [hcf, hct] at hmk; cases hmk
      | some b =>
        cases hatt : pr.2 with
        | none => rw [hcf, hct, hatt] at hmk; cases hmk
        | some att =>
          rw [hcf, hct, hatt] at hmk
          injection hmk with hmk
          rw [← hmk]
          exact hpairnone pr hpr
  · intro row hrow
    unfold no_factors_new at hrow
    rcases List.mem_map.mp hrow with ⟨k, _, rfl⟩
    show osum _ = 0
    apply osum_eq_zero_of_all_none
    intro o ho
    rcases List.mem_map.mp ho with ⟨x, hx, rfl⟩
    rcases List.mem_filterMap.mp (List.mem_of_mem_filter hx) with ⟨pr, hpr, hmk⟩
    cases hcf : pr.1.zoneCodeFrom with
    | none => rw [hcf] at hmk; cases hmk
    | some a =>
      cases hct : pr.1.zoneCodeTo with
      | none => rw [hcf, hct] at hmk; cases hmk
      | some b =>
        cases hatt : pr.2 with
        | some att => rw [hcf, hct, hatt] at hmk; cases hmk
        | none =>
          rw [hcf, hct, hatt] at hmk
          injection hmk with hmk
          rw [← hmk]
          exact hpairnone pr hpr
  · unfold apply_edge_growth_method1
    rw [List.map_map]
    apply List.map_congr_left
    intro m hm
    show m.t_demand.map _ = none
    rw [h m hm]
    rfl

/-- The movement whose ticket-split key has no entry: after
`apply_ticket_splits` its F, R, S demands are all NaN. -/
def mxC7 : MxRow :=
  { from_model_zone_id := 1, to_model_zone_id := 2, from_stn_zone_id := 3,
    to_stn_zone_id := 4, userclass := 1, distance := none, demand := 5,
    o_tlc := some "A", d_tlc := some "B", flowCatName := none,
    tag_nondist := none, tag_flow := none, purpose := "Business",
    F := none, R := none, S := none }

/-- A factor table covering all three ticket types of the C7 movement. -/
def tblC7 : List FactorRow :=
  [{ zoneCodeFrom := "A", zoneCodeTo := "B", purpose := "Business",
     ticketType := "F", demand_rate := some 2, flag := 1 },
   { zoneCodeFrom := "A", zoneCodeTo := "B", purpose := "Business",
     ticketType := "R", demand_rate := some 2, flag := 1 },
   { zoneCodeFrom := "A", zoneCodeTo := "B", purpose := "Business",
     ticketType := "S", demand_rate := some 2, flag := 1 }]

/-- Counterexample to C7 as stated: a movement with demand 5 whose split key
is unmatched but whose growth factors all exist is appended to neither audit
(its demand is counted against no audit total), and its output demand is
NaN, so it contributes nothing to the factored segment either. -/
theorem null_split_counterexample :
    mxC7.F = none ∧ mxC7.R = none ∧ mxC7.S = none ∧ mxC7.demand = 5
    ∧ (create_factors_for_missing_moira_movements [mxC7] tblC7 [] []).2.1 = []
    ∧ (create_factors_for_missing_moira_movements [mxC7] tblC7 [] []).2.2 = []
    ∧ (apply_edge_growth_method1 [mxC7]
        (create_factors_for_missing_moira_movements [mxC7] tblC7 [] []).1).map
          GrownRow.n_demand = [none, none, none]
    ∧ osum [none, none, none] = 0 :=
  ⟨rfl, rfl, rfl, rfl, rfl, rfl, rfl, by simp [osum]⟩

/-- Witness for C7 (amended) at the concrete all-null movement. -/
theorem null_split_propagation_witness :
    (∀ m ∈ melt [mxC7], m.t_demand = none)
    ∧ ∀ row ∈ no_factors_new [mxC7] (validFactors tblC7), row.t_demand = 0 :=
  ⟨by decide, (null_split_propagation [mxC7] tblC7 (by decide)).2.2.1⟩

/-! ## The quality gate -/

/-- Python `round` to an integer: round half to even (banker's rounding). -/
def roundHalfEven (q : ℚ) : ℤ :=
  if q - ⌊q⌋ < 1/2 then ⌊q⌋
  else if 1/2 < q - ⌊q⌋ then ⌊q⌋ + 1
  else if ⌊q⌋ % 2 = 0 then ⌊q⌋ else ⌊q⌋ + 1

/-- Python `round(x, 3)`. -/
def round3 (q : ℚ) : ℚ := (roundHalfEven (q * 1000) : ℚ) / 1000

/-- Total unfactored demand (`prepare_logging_info` line 821; the regrouping
performed there first never changes a column total, cf. `sum_groups`). -/
def no_factors_total (nofac : List NoFacRow) : ℚ :=
  (nofac.map NoFacRow.t_demand).sum

/-- `prepare_logging_info` line 833: the percentage of total demand having
no factor, rounded to 3 decimal places. -/
def no_factor_demand_prop (nofac : List NoFacRow) (demand_total : ℚ) : ℚ :=
  round3 (no_factors_total nofac / demand_total * 100)

/-- `run_edge_growth` line 1388: the run aborts (before writing any output
matrix) exactly when the rounded percentage strictly exceeds 1; otherwise it
proceeds to write every segment matrix. -/
def growth_gate_aborts (nofac : List NoFacRow) (demand_total : ℚ) : Bool :=
  decide (no_factor_demand_prop nofac demand_total > 1)

/-- Rounding half to even exceeds 1000 exactly above 1000.5 (the tie at
exactly 1000.5 rounds down to the even 1000). -/
theorem roundHalfEven_gt_1000 (y : ℚ) :
    roundHalfEven y > 1000 ↔ y > 2001/2 := by
  have hfl : (⌊y⌋ : ℚ) ≤ y := Int.floor_le y
  have hlt : y < ⌊y⌋ + 1 := Int.lt_floor_add_one y
  unfold roundHalfEven
  split_ifs with h1 h2 h3
  · constructor
    · intro hgt
      have hq : (1001 : ℚ) ≤ (⌊y⌋ : ℚ) := by exact_mod_cast hgt
      linarith
    · intro hy
      have hq : (1000 : ℚ) < (⌊y⌋ : ℚ) := by linarith
      have hz : (1000 : ℤ) < ⌊y⌋ := by exact_mod_cast hq
      omega
  · constructor
    · intro hgt
      have hz : (1000 : ℤ) ≤ ⌊y⌋ := by omega
      have hq : (1000 : ℚ) ≤ (⌊y⌋ : ℚ) := by exact_mod_cast hz
      linarith
    · intro hy
      have hq : (999 : ℚ) < (⌊y⌋ : ℚ) := by linarith
      have hz : (999 : ℤ) < ⌊y⌋ := by exact_mod_cast hq
      omega
  · have hfr : y - ⌊y⌋ = 1/2 := le_antisymm (not_lt.mp h2) (not_lt.mp h1)
    constructor
    · intro hgt
      have hq : (1001 : ℚ) ≤ (⌊y⌋ : ℚ) := by exact_mod_cast hgt
      linarith
    · intro hy
      have hq : (1000 : ℚ) < (⌊y⌋ : ℚ) := by linarith
      exact_mod_cast hq
  · have hfr : y - ⌊y⌋ = 1/2 := le_antisymm (not_lt.mp h2) (not_lt.mp h1)
    constructor
    · intro hgt
      have hz : (1001 : ℤ) ≤ ⌊y⌋ := by omega
      have hq : (1001 : ℚ) ≤ (⌊y⌋ : ℚ) := by exact_mod_cast hz
      linarith
    · intro hy
      have hq : (1000 : ℚ) < (⌊y⌋ : ℚ) := by linarith
      have hz : (1000 : ℤ) < ⌊y⌋ := by exact_mod_cast hq
      omega

/-- The gate fires exactly above an exact percentage of 1.0005. -/
theorem growth_gate_iff (nofac : List NoFacRow) (T : ℚ) :
    growth_gate_aborts nofac T = true
      ↔ no_factors_total nofac / T * 100 > 2001/2000 := by
  unfold growth_gate_aborts no_factor_demand_prop round3
  rw [decide_eq_true_eq]
  constructor
  · intro h
    have h1 : ((roundHalfEven (no_factors_total nofac / T * 100 * 1000) : ℤ) : ℚ)
        > 1000 := by linarith
    have h2 : roundHalfEven (no_factors_total nofac / T * 100 * 1000) > 1000 := by
      exact_mod_cast h1
    have h3 := (roundHalfEven_gt_1000 _).mp h2
    linarith
  · intro h
    have h3 : no_factors_total nofac / T * 100 * 1000 > 2001/2 := by linarith
    have h2 := (roundHalfEven_gt_1000 _).mpr h3
    have h1 : ((roundHalfEven (no_factors_total nofac / T * 100 * 1000) : ℤ) : ℚ)
        > 1000 := by exact_mod_cast h2
    linarith

/-- C3 (amended): the gate compares the percentage after rounding it to 3
decimal places (round half to even), so the run aborts iff the exact
unfactored percentage exceeds 1.0005; at exactly 1.000% of total it
completes, and at 1.001% it aborts. -/
theorem growth_gate_boundary (nofac : List NoFacRow) (T : ℚ) :
    (growth_gate_aborts nofac T = true
      ↔ no_factors_total nofac / T * 100 > 2001/2000)
    ∧ growth_gate_aborts [⟨"A", "B", 0, 1⟩] 100 = false
    ∧ growth_gate_aborts [⟨"A", "B", 0, 1001/1000⟩] 100 = true := by
  refine ⟨growth_gate_iff nofac T, ?_, ?_⟩
  · rw [Bool.eq_false_iff]
    intro hcon
    have h := (growth_gate_iff _ _).mp hcon
    have htot : no_factors_total [(⟨"A", "B", 0, 1⟩ : NoFacRow)] = 1 := by
      simp [no_factors_total]
    rw [htot] at h
    norm_num at h
  · apply (growth_gate_iff _ _).mpr
    have htot : no_factors_total [(⟨"A", "B", 0, 1001/1000⟩ : NoFacRow)]
        = 1001/1000 := by
      simp [no_factors_total]
    rw [htot]
    norm_num

/-- Counterexample to C3 as stated: at exactly 1.0004% unfactored demand —
which strictly exceeds 1% of total — the run does not abort, because the
percentage is rounded to 1.000 before the strict comparison. -/
theorem growth_gate_counterexample :
    no_factors_total [⟨"A", "B", 0, 10004/10000⟩] / 100 * 100 > 1
    ∧ growth_gate_aborts [⟨"A", "B", 0, 10004/10000⟩] 100 = false := by
  have htot : no_factors_total [(⟨"A", "B", 0, 10004/10000⟩ : NoFacRow)]
      = 10004/10000 := by
    simp [no_factors_total]
  constructor
  · rw [htot]
    norm_num
  · rw [Bool.eq_false_iff]
    intro hcon
    have h := (growth_gate_iff _ _).mp hcon
    rw [htot] at h
    norm_num at h

/-! ## Purpose assignment (C10) -/

/-- Ticket-split table for the C10 witness. -/
def splitsC10 : List TicketSplitRow :=
  [{ tag_flow := "TagY", purpose := "Business", F := 1/2, R := 1/4, S := 1/4 }]

/-- C10: purpose assignment is total with an empty-string sentinel:
userclass 1..3 → Business, 4..6 → Commuting, 7..9 → Leisure, anything else →
`""`; and a record carrying the empty purpose matches no factor-table row
and no ticket-split row whose purpose keys are non-empty (as the purpose
columns of those tables hold the three purpose names), so it can only
surface later as unmatched/unfactored demand. -/
theorem assign_purposes_total (uc : ℤ) (tbl : List FactorRow)
    (splits : List TicketSplitRow)
    (hp : ∀ s ∈ tbl, s.purpose ≠ "") (hs : ∀ s ∈ splits, s.purpose ≠ "") :
    ((1 ≤ uc ∧ uc ≤ 3) → purposeOfUserclass uc = "Business")
    ∧ ((4 ≤ uc ∧ uc ≤ 6) → purposeOfUserclass uc = "Commuting")
    ∧ ((7 ≤ uc ∧ uc ≤ 9) → purposeOfUserclass uc = "Leisure")
    ∧ (uc < 1 ∨ 9 < uc →
        purposeOfUserclass uc = ""
        ∧ (∀ r : MeltRow, r.purpose = purposeOfUserclass uc
            → lookup4 tbl r = none)
        ∧ ∀ tagFlow : Option String,
            split_lookup splits tagFlow (purposeOfUserclass uc) = none) := by
  refine ⟨?_, ?_, ?_, ?_⟩
  · rintro ⟨h1, h2⟩
    interval_cases uc <;> rfl
  · rintro ⟨h1, h2⟩
    interval_cases uc <;> rfl
  · rintro ⟨h1, h2⟩
    interval_cases uc <;> rfl
  · intro hout
    have n1 : uc ≠ 1 := by omega
    have n2 : uc ≠ 2 := by omega
    have n3 : uc ≠ 3 := by omega
    have n4 : uc ≠ 4 := by omega
    have n5 : uc ≠ 5 := by omega
    have n6 : uc ≠ 6 := by omega
    have n7 : uc ≠ 7 := by omega
    have n8 : uc ≠ 8 := by omega
    have n9 : uc ≠ 9 := by omega
    have hempty : purposeOfUserclass uc = "" := by
      unfold purposeOfUserclass
      simp [n1, n2, n3, n4, n5, n6, n7, n8, n9]
    refine ⟨hempty, ?_, ?_⟩
    · intro r hr
      unfold lookup4
      rw [List.find?_eq_none]
      intro s hsmem
      simp only [decide_eq_true_eq]
      rintro ⟨-, -, -, hpur⟩
      exact hp s hsmem (by rw [← hpur, hr, hempty])
    · intro tagFlow
      unfold split_lookup
      rw [List.find?_eq_none]
      intro s hsmem
      simp only [decide_eq_true_eq]
      rintro ⟨-, hpur⟩
      exact hs s hsmem (by rw [← hpur, hempty])

/-- Witness for C10 at userclass 10 against concrete tables. -/
theorem assign_purposes_total_witness :
    (∀ s ∈ tblC7, s.purpose ≠ "")
    ∧ (∀ s ∈ splitsC10, s.purpose ≠ "")
    ∧ purposeOfUserclass 10 = "" := by
  have hp : ∀ s ∈ tblC7, s.purpose ≠ "" := by decide
  have hs : ∀ s ∈ splitsC10, s.purpose ≠ "" := by decide
  exact ⟨hp, hs,
    ((assign_purposes_total 10 tblC7 splitsC10 hp hs).2.2.2
      (Or.inr (by norm_num))).1⟩

/-! ## Preparing the station-to-station matrix (C6) -/

/-- One row of the zone-to-zone demand matrix. -/
structure DemandRow where
  from_model_zone_id : ℕ
  to_model_zone_id : ℕ
  userclass : ℤ
  demand : ℚ
deriving DecidableEq

/-- One row of the iRSj split-probability table. -/
structure ProbRow where
  from_model_zone_id : ℕ
  to_model_zone_id : ℕ
  userclass : ℤ
  from_stn_zone_id : ℕ
  to_stn_zone_id : ℕ
  proportion : ℚ
deriving DecidableEq

/-- One row of the station-to-station distance table. -/
structure DistRow where
  from_stn_zone_id : ℕ
  to_stn_zone_id : ℕ
  tran_distance : ℚ
deriving DecidableEq

/-- One row of the station-zone-to-TLC lookup. -/
structure TlcRow where
  stn_zone_id : ℕ
  stationcode : String
deriving DecidableEq

/-- One row of the EDGE flows lookup (after the renames of
`assign_edge_flow`). -/
structure FlowRow where
  o_tlc : String
  d_tlc : String
  flowCatName : String
deriving DecidableEq

/-- One row of the flow-category to TAG non-distance-flow lookup. -/
structure FlowLookupRow where
  flowCatName : String
  tag_nondist : String
deriving DecidableEq

/-- The iRSj rows allocating one (origin, destination, userclass) movement
(the join key of `prepare_stn2stn_matrix`). -/
def probMatches (probs : List ProbRow) (o d : ℕ) (uc : ℤ) : List ProbRow :=
  probs.filter (fun p => decide (p.from_model_zone_id = o
    ∧ p.to_model_zone_id = d ∧ p.userclass = uc))

/-- The transposed join key of `prepare_stn2stn_matrix_tohome`:
`left_on=[from, to, uc]`, `right_on=[to, from, uc]`. -/
def probMatchesTohome (probs : List ProbRow) (o d : ℕ) (uc : ℤ) : List ProbRow :=
  probs.filter (fun p => decide (p.to_model_zone_id = o
    ∧ p.from_model_zone_id = d ∧ p.userclass = uc))

/-- `transpose_matrix` applied to the raw demand matrix (to-home branch). -/
def transpose_demand (dm : List DemandRow) : List DemandRow :=
  dm.map (fun r => { r with
    from_model_zone_id := r.to_model_zone_id,
    to_model_zone_id := r.from_model_zone_id })

/-- The demand-to-probability left merge: one row per (demand row,
matching probability row), with demand scaled by the proportion.  A demand
row with no match gets NaN stations and NaN demand and is then dropped by
the station groupby (NaN group keys), so it contributes no row here. -/
def join_probs (dm : List DemandRow) (probs : List ProbRow) :
    List ((ℕ × ℕ × ℕ × ℕ × ℤ) × ℚ) :=
  dm.flatMap (fun r =>
    (probMatches probs r.from_model_zone_id r.to_model_zone_id r.userclass).map
      (fun p => ((r.from_model_zone_id, r.to_model_zone_id, p.from_stn_zone_id,
        p.to_stn_zone_id, r.userclass), r.demand * p.proportion)))

/-- The to-home variant of the probability join (applied to the transposed
matrix, with the transposed join key). -/
def join_probs_tohome (dm : List DemandRow) (probs : List ProbRow) :
    List ((ℕ × ℕ × ℕ × ℕ × ℤ) × ℚ) :=
  dm.flatMap (fun r =>
    (probMatchesTohome probs r.from_model_zone_id r.to_model_zone_id r.userclass).map
      (fun p => ((r.from_model_zone_id, r.to_model_zone_id, p.from_stn_zone_id,
        p.to_stn_zone_id, r.userclass), r.demand * p.proportion)))

/-- The station-level groupby
`groupby([from_model_zone_id, to_model_zone_id, from_stn_zone_id,
to_stn_zone_id, userclass])["Demand"].sum()`. -/
def group_stn (rows : List ((ℕ × ℕ × ℕ × ℕ × ℤ) × ℚ)) :
    List ((ℕ × ℕ × ℕ × ℕ × ℤ) × ℚ) :=
  ((rows.map Prod.fst).dedup).map (fun k =>
    (k, ((rows.filter (fun x => decide (x.1 = k))).map Prod.snd).sum))

/-- The common tail of both prepare functions: drop rows whose from-station
is the zero sentinel, then left-merge the distance and the two TLC
columns. -/
def stn_attach (distMX : List DistRow) (stnTLC : List TlcRow)
    (rows : List ((ℕ × ℕ × ℕ × ℕ × ℤ) × ℚ)) : List MxRow :=
  (rows.filter (fun x => decide (x.1.2.2.1 ≠ 0))).map (fun x =>
    { from_model_zone_id := x.1.1, to_model_zone_id := x.1.2.1,
      from_stn_zone_id := x.1.2.2.1, to_stn_zone_id := x.1.2.2.2.1,
      userclass := x.1.2.2.2.2,
      distance := (distMX.find? (fun d => decide (d.from_stn_zone_id = x.1.2.2.1
        ∧ d.to_stn_zone_id = x.1.2.2.2.1))).map DistRow.tran_distance,
      demand := x.2,
      o_tlc := (stnTLC.find? (fun c =>
        decide (c.stn_zone_id = x.1.2.2.1))).map TlcRow.stationcode,
      d_tlc := (stnTLC.find? (fun c =>
        decide (c.stn_zone_id = x.1.2.2.2.1))).map TlcRow.stationcode,
      flowCatName := none, tag_nondist := none, tag_flow := none,
      purpose := "", F := none, R := none, S := none })

/-- `prepare_stn2stn_matrix`. -/
def prepare_stn2stn_matrix (dm : List DemandRow) (probs : List ProbRow)
    (distMX : List DistRow) (stnTLC : List TlcRow) : List MxRow :=
  stn_attach distMX stnTLC (group_stn (join_probs dm probs))

/-- `prepare_stn2stn_matrix_tohome`. -/
def prepare_stn2stn_matrix_tohome (dm : List DemandRow) (probs : List ProbRow)
    (distMX : List DistRow) (stnTLC : List TlcRow) : List MxRow :=
  stn_attach distMX stnTLC (group_stn (join_probs_tohome (transpose_demand dm) probs))

/-- `assign_edge_flow`: left merge on `(O_TLC, D_TLC)` against the EDGE
flows, then on `FlowCatName` against the TAG non-distance-flow lookup (a NaN
key matches nothing). -/
def assign_edge_flow (edge_flows : List FlowRow) (flows_lookup : List FlowLookupRow)
    (mx : List MxRow) : List MxRow :=
  mx.map (fun r =>
    { r with
      flowCatName := ((edge_flows.find? (fun f => decide (some f.o_tlc = r.o_tlc
        ∧ some f.d_tlc = r.d_tlc))).map FlowRow.flowCatName),
      tag_nondist := match (edge_flows.find? (fun f => decide (some f.o_tlc = r.o_tlc
          ∧ some f.d_tlc = r.d_tlc))).map FlowRow.flowCatName with
        | some name => (flows_lookup.find? (fun l =>
            decide (l.flowCatName = name))).map FlowLookupRow.tag_nondist
        | none => none })

/-- `add_distance_band_tag_flow` per row: `TAG_Flow` starts as
`TAG_NonDist`; the two broad flows are refined by the fixed distance bands
(25 and 100 miles; 100 miles).  A NaN distance satisfies no band condition,
so the label stays at the broad flow. -/
def band_tag_flow (tag : Option String) (dist : Option ℚ) : Option String :=
  if tag = some "Outside South East" then
    match dist with
    | some x =>
        if x < 25 then some "Outside South East <25 miles"
        else if x < 100 then some "Outside South East 25 to 100 miles"
        else some "Outside South East  100 + miles - adjusted"
    | none => tag
  else if tag = some "Outside South East to/from London" then
    match dist with
    | some x =>
        if x < 100 then some "Outside South East to/from London < 100 miles"
        else some "Outside South East to/from London 100 + miles"
    | none => tag
  else tag

/-- `add_distance_band_tag_flow` on the whole matrix. -/
def add_distance_band_tag_flow (mx : List MxRow) : List MxRow :=
  mx.map (fun r => { r with tag_flow := band_tag_flow r.tag_nondist r.distance })

/-- The matrix after preparation (demand filtered to positive rows first,
per `run_edge_growth` line 1322, transposed preparation for to-home
segments). -/
def prepared_matrix (tohome : Bool) (dm : List DemandRow) (probs : List ProbRow)
    (distMX : List DistRow) (stnTLC : List TlcRow) : List MxRow :=
  if tohome then
    prepare_stn2stn_matrix_tohome (dm.filter (fun r => decide (r.demand > 0)))
      probs distMX stnTLC
  else
    prepare_stn2stn_matrix (dm.filter (fun r => decide (r.demand > 0)))
      probs distMX stnTLC

/-- The matrix after flow classification and purpose assignment. -/
def classified_matrix (tohome : Bool) (dm : List DemandRow) (probs : List ProbRow)
    (distMX : List DistRow) (stnTLC : List TlcRow) (edge_flows : List FlowRow)
    (flows_lookup : List FlowLookupRow) : List MxRow :=
  assign_purposes (add_distance_band_tag_flow (assign_edge_flow edge_flows
    flows_lookup (prepared_matrix tohome dm probs distMX stnTLC)))

/-- The matrix after the ticket-split merge and application: the input of
`create_factors_for_missing_moira_movements` and of the growth methods. -/
def segment_mx (tohome : Bool) (dm : List DemandRow) (probs : List ProbRow)
    (distMX : List DistRow) (stnTLC : List TlcRow) (edge_flows : List FlowRow)
    (flows_lookup : List FlowLookupRow) (ticket_splits : List TicketSplitRow) :
    List MxRow :=
  apply_ticket_splits (merge_ticket_splits ticket_splits
    (classified_matrix tohome dm probs distMX stnTLC edge_flows flows_lookup))

/-- The inner-loop body of `run_edge_growth` for one (period, segment):
prepare, classify, split, update the factor table, apply the segment's
growth method, and group back to zone-to-zone. -/
def process_segment (tohome : Bool) (method : ℕ) (dm : List DemandRow)
    (probs : List ProbRow) (distMX : List DistRow) (stnTLC : List TlcRow)
    (edge_flows : List FlowRow) (flows_lookup : List FlowLookupRow)
    (ticket_splits : List TicketSplitRow) (edgeFactors : List FactorRow) :
    List ZoneRow :=
  zone2zone (if method = 1 then
    apply_edge_growth_method1
      (segment_mx tohome dm probs distMX stnTLC edge_flows flows_lookup ticket_splits)
      (augment_step edgeFactors
        (segment_mx tohome dm probs distMX stnTLC edge_flows flows_lookup ticket_splits))
  else
    apply_edge_growth_method2
      (segment_mx tohome dm probs distMX stnTLC edge_flows flows_lookup ticket_splits)
      (augment_step edgeFactors
        (segment_mx tohome dm probs distMX stnTLC edge_flows flows_lookup ticket_splits)))

/-! ## Conservation lemmas (C6) -/

/-- The zone-to-zone groupby preserves the total grown demand. -/
theorem zone2zone_n_total (g : List GrownRow) :
    ((zone2zone g).map ZoneRow.n_demand).sum = osum (g.map GrownRow.n_demand) := by
  unfold zone2zone
  rw [List.map_map]
  have h1 : (ZoneRow.n_demand ∘ fun k : ℕ × ℕ =>
      (⟨k.1, k.2,
        osum ((g.filter (fun x => decide (zoneKey x = k))).map GrownRow.t_demand),
        osum ((g.filter (fun x => decide (zoneKey x = k))).map GrownRow.n_demand)⟩ : ZoneRow))
      = fun k => ((g.filter (fun x => decide (zoneKey x = k))).map
          (fun x => (GrownRow.n_demand x).getD 0)).sum := by
    funext k
    show osum _ = _
    unfold osum
    rw [List.map_map]
    rfl
  rw [h1]
  rw [sum_groups zoneKey (fun x => (GrownRow.n_demand x).getD 0) g _
    (List.nodup_dedup _)
    (fun x hx => List.mem_dedup.mpr (List.mem_map_of_mem zoneKey hx))]
  unfold osum
  rw [List.map_map]
  rfl

/-- The grown demand column of method 1, row-wise. -/
theorem method1_map_n (mx : List MxRow) (tbl : List FactorRow) :
    (apply_edge_growth_method1 mx tbl).map GrownRow.n_demand
      = (melt mx).map (fun m => m.t_demand.map (fun x => x * method1_rate tbl m)) := by
  unfold apply_edge_growth_method1
  rw [List.map_map]
  rfl

/-- The grown demand column of method 2, row-wise. -/
theorem method2_map_n (mx : List MxRow) (tbl : List FactorRow) :
    (apply_edge_growth_method2 mx tbl).map GrownRow.n_demand
      = (melt mx).map (fun m => m.t_demand.map (fun x => x * method2_rate tbl m)) := by
  unfold apply_edge_growth_method2
  rw [List.map_map]
  rfl

/-- With every resolved rate equal to 1, growing changes no total. -/
theorem osum_map_rate_one (ms : List MeltRow) (rate : MeltRow → ℚ)
    (h : ∀ m ∈ ms, rate m = 1) :
    osum (ms.map (fun m => m.t_demand.map (fun x => x * rate m)))
      = osum (ms.map MeltRow.t_demand) := by
  unfold osum
  rw [List.map_map, List.map_map]
  apply congrArg List.sum
  apply List.map_congr_left
  intro m hm
  show (m.t_demand.map (fun x => x * rate m)).getD 0 = m.t_demand.getD 0
  rw [h m hm]
  cases m.t_demand with
  | none => rfl
  | some x =>
    show x * 1 = x
    exact mul_one x

/-- Melting splits the total into the three ticket columns. -/
theorem melt_t_total (mx : List MxRow) :
    osum ((melt mx).map MeltRow.t_demand)
      = osum (mx.map MxRow.F) + osum (mx.map MxRow.R) + osum (mx.map MxRow.S) := by
  unfold melt meltCol osum
  simp only [List.map_append, List.sum_append, List.map_map]
  rfl

theorem sum_map_add3 (l : List α) (f g h : α → ℚ) :
    (l.map f).sum + (l.map g).sum + (l.map h).sum
      = (l.map (fun x => f x + g x + h x)).sum := by
  induction l with
  | nil => simp
  | cons x xs ih =>
    simp only [List.map_cons, List.sum_cons]
    rw [← ih]
    ring

/-- The split merge and application, row-wise. -/
theorem split_apply_eq (splits : List TicketSplitRow) (cls : List MxRow) :
    apply_ticket_splits (merge_ticket_splits splits cls) = cls.map (fun r =>
      match split_lookup splits r.tag_flow r.purpose with
      | some s => { r with
          F := some (s.F * r.demand),
          R := some (s.R * r.demand),
          S := some (s.S * r.demand) }
      | none => { r with F := none, R := none, S := none }) := by
  unfold apply_ticket_splits merge_ticket_splits
  rw [List.map_map]
  apply List.map_congr_left
  intro r _
  dsimp only [Function.comp]
  cases hs : split_lookup splits r.tag_flow r.purpose with
  | some s => rfl
  | none => rfl

/-- With every split matched and summing to 1, the three ticket columns
together carry exactly the classified demand. -/
theorem split_total (splits : List TicketSplitRow) (cls : List MxRow)
    (h : ∀ x ∈ cls, ∃ s, split_lookup splits x.tag_flow x.purpose = some s
        ∧ s.F + s.R + s.S = 1) :
    osum ((apply_ticket_splits (merge_ticket_splits splits cls)).map MxRow.F)
      + osum ((apply_ticket_splits (merge_ticket_splits splits cls)).map MxRow.R)
      + osum ((apply_ticket_splits (merge_ticket_splits splits cls)).map MxRow.S)
      = (cls.map MxRow.demand).sum := by
  rw [split_apply_eq]
  unfold osum
  simp only [List.map_map]
  rw [sum_map_add3]
  apply congrArg List.sum
  apply List.map_congr_left
  intro r hr
  rcases h r hr with ⟨s, hs, hsum⟩
  simp only [Function.comp, hs]
  show s.F * r.demand + s.R * r.demand + s.S * r.demand = r.demand
  have hfac : s.F * r.demand + s.R * r.demand + s.S * r.demand
      = (s.F + s.R + s.S) * r.demand := by ring
  rw [hfac, hsum, one_mul]

/-- Flow classification and purpose assignment never touch the demand. -/
theorem classify_demand (edge_flows : List FlowRow) (flows_lookup : List FlowLookupRow)
    (mx : List MxRow) :
    ((assign_purposes (add_distance_band_tag_flow
        (assign_edge_flow edge_flows flows_lookup mx))).map MxRow.demand)
      = mx.map MxRow.demand := by
  unfold assign_purposes add_distance_band_tag_flow assign_edge_flow
  simp only [List.map_map]
  rfl

/-- The transposed to-home join key selects exactly the outbound-direction
probability rows. -/
theorem probMatchesTohome_transposed (probs : List ProbRow) (a b : ℕ) (uc : ℤ) :
    probMatchesTohome probs b a uc = probMatches probs a b uc := by
  unfold probMatchesTohome probMatches
  apply List.filter_congr
  intro p _
  rw [decide_eq_decide]
  constructor
  · rintro ⟨h1, h2, h3⟩
    exact ⟨h2, h1, h3⟩
  · rintro ⟨h1, h2, h3⟩
    exact ⟨h2, h1, h3⟩

theorem sum_map_mul_const (l : List ProbRow) (c : ℚ) :
    (l.map (fun p => c * p.proportion)).sum = c * (l.map ProbRow.proportion).sum := by
  induction l with
  | nil => simp
  | cons x xs ih =>
    simp only [List.map_cons, List.sum_cons]
    rw [ih]
    ring

/-- The station groupby preserves the demand total. -/
theorem group_stn_total (rows : List ((ℕ × ℕ × ℕ × ℕ × ℤ) × ℚ)) :
    ((group_stn rows).map Prod.snd).sum = (rows.map Prod.snd).sum := by
  unfold group_stn
  rw [List.map_map]
  exact sum_groups Prod.fst Prod.snd rows _ (List.nodup_dedup _)
    (fun x hx => List.mem_dedup.mpr (List.mem_map_of_mem Prod.fst hx))

/-- When every allocation sums to 1, the probability join preserves the
demand total. -/
theorem join_probs_total (probs : List ProbRow) :
    ∀ dm : List DemandRow,
    (∀ r ∈ dm, ((probMatches probs r.from_model_zone_id r.to_model_zone_id
        r.userclass).map ProbRow.proportion).sum = 1)
    → ((join_probs dm probs).map Prod.snd).sum = (dm.map DemandRow.demand).sum := by
  intro dm
  induction dm with
  | nil => intro _; rfl
  | cons r rs ih =>
    intro h
    unfold join_probs
    simp only [List.flatMap_cons, List.map_append, List.sum_append, List.map_cons,
      List.sum_cons, List.map_map]
    have htail := ih (fun x hx => h x (List.mem_cons_of_mem r hx))
    unfold join_probs at htail
    rw [htail]
    congr 1
    have hr := h r (List.mem_cons_self r rs)
    have hcomp : (Prod.snd ∘ fun p : ProbRow =>
        ((r.from_model_zone_id, r.to_model_zone_id, p.from_stn_zone_id,
          p.to_stn_zone_id, r.userclass), r.demand * p.proportion))
        = fun p : ProbRow => r.demand * p.proportion := rfl
    rw [hcomp, sum_map_mul_const, hr, mul_one]

/-- The to-home variant of `join_probs_total` (on the transposed matrix). -/
theorem join_probs_tohome_total (probs : List ProbRow) :
    ∀ dm : List DemandRow,
    (∀ r ∈ dm, ((probMatches probs r.from_model_zone_id r.to_model_zone_id
        r.userclass).map ProbRow.proportion).sum = 1)
    → ((join_probs_tohome (transpose_demand dm) probs).map Prod.snd).sum
      = (dm.map DemandRow.demand).sum := by
  intro dm
  induction dm with
  | nil => intro _; rfl
  | cons r rs ih =>
    intro h
    unfold transpose_demand join_probs_tohome
    simp only [List.map_cons, List.flatMap_cons, List.map_append, List.sum_append,
      List.sum_cons, List.map_map]
    have htail := ih (fun x hx => h x (List.mem_cons_of_mem r hx))
    unfold transpose_demand join_probs_tohome at htail
    rw [htail]
    congr 1
    have hr := h r (List.mem_cons_self r rs)
    have hkey : probMatchesTohome probs r.to_model_zone_id r.from_model_zone_id
        r.userclass = probMatches probs r.from_model_zone_id r.to_model_zone_id
          r.userclass :=
      probMatchesTohome_transposed probs r.from_model_zone_id r.to_model_zone_id
        r.userclass
    show ((probMatchesTohome probs r.to_model_zone_id r.from_model_zone_id
        r.userclass).map (fun p => r.demand * p.proportion)).sum = r.demand
    rw [hkey, sum_map_mul_const, hr, mul_one]

/-- The zero-station filter drops nothing when every allocation avoids the
zero station, and the attribute merges never touch the demand. -/
theorem stn_attach_total (distMX : List DistRow) (stnTLC : List TlcRow)
    (rows : List ((ℕ × ℕ × ℕ × ℕ × ℤ) × ℚ))
    (h : ∀ x ∈ rows, x.1.2.2.1 ≠ 0) :
    ((stn_attach distMX stnTLC rows).map MxRow.demand).sum
      = (rows.map Prod.snd).sum := by
  unfold stn_attach
  rw [List.filter_eq_self.mpr (by
    intro x hx
    simp only [decide_eq_true_eq]
    exact h x hx)]
  rw [List.map_map]
  rfl

theorem group_stn_keys_fs (rows : List ((ℕ × ℕ × ℕ × ℕ × ℤ) × ℚ))
    (h : ∀ x ∈ rows, x.1.2.2.1 ≠ 0) :
    ∀ x ∈ group_stn rows, x.1.2.2.1 ≠ 0 := by
  intro x hx
  unfold group_stn at hx
  rcases List.mem_map.mp hx with ⟨k, hk, rfl⟩
  rcases List.mem_map.mp (List.mem_dedup.mp hk) with ⟨y, hy, rfl⟩
  exact h y hy

theorem join_probs_fs (dm : List DemandRow) (probs : List ProbRow)
    (h : ∀ r ∈ dm, ∀ p ∈ probMatches probs r.from_model_zone_id r.to_model_zone_id
        r.userclass, p.from_stn_zone_id ≠ 0) :
    ∀ x ∈ join_probs dm probs, x.1.2.2.1 ≠ 0 := by
  intro x hx
  unfold join_probs at hx
  rcases List.mem_flatMap.mp hx with ⟨r, hr, hm⟩
  rcases List.mem_map.mp hm with ⟨p, hp, rfl⟩
  exact h r hr p hp

theorem join_probs_tohome_fs (dm : List DemandRow) (probs : List ProbRow)
    (h : ∀ r ∈ dm, ∀ p ∈ probMatches probs r.from_model_zone_id r.to_model_zone_id
        r.userclass, p.from_stn_zone_id ≠ 0) :
    ∀ x ∈ join_probs_tohome (transpose_demand dm) probs, x.1.2.2.1 ≠ 0 := by
  intro x hx
  unfold join_probs_tohome at hx
  rcases List.mem_flatMap.mp hx with ⟨r', hr', hm⟩
  rcases List.mem_map.mp hm with ⟨p, hp, rfl⟩
  unfold transpose_demand at hr'
  rcases List.mem_map.mp hr' with ⟨r, hr, rfl⟩
  have hp' : p ∈ probMatches probs r.from_model_zone_id r.to_model_zone_id
      r.userclass := by
    rw [← probMatchesTohome_transposed probs r.from_model_zone_id
      r.to_model_zone_id r.userclass]
    exact hp
  exact h r hr p hp'

/-- `prepare_stn2stn_matrix` preserves the demand total. -/
theorem prepare_total_from (dm0 : List DemandRow) (probs : List ProbRow)
    (distMX : List DistRow) (stnTLC : List TlcRow)
    (hsum : ∀ r ∈ dm0, ((probMatches probs r.from_model_zone_id r.to_model_zone_id
        r.userclass).map ProbRow.proportion).sum = 1)
    (hfs : ∀ r ∈ dm0, ∀ p ∈ probMatches probs r.from_model_zone_id
        r.to_model_zone_id r.userclass, p.from_stn_zone_id ≠ 0) :
    ((prepare_stn2stn_matrix dm0 probs distMX stnTLC).map MxRow.demand).sum
      = (dm0.map DemandRow.demand).sum := by
  unfold prepare_stn2stn_matrix
  rw [stn_attach_total distMX stnTLC _
    (group_stn_keys_fs _ (join_probs_fs dm0 probs hfs))]
  rw [group_stn_total]
  exact join_probs_total probs dm0 hsum

/-- `prepare_stn2stn_matrix_tohome` preserves the demand total. -/
theorem prepare_total_tohome (dm0 : List DemandRow) (probs : List ProbRow)
    (distMX : List DistRow) (stnTLC : List TlcRow)
    (hsum : ∀ r ∈ dm0, ((probMatches probs r.from_model_zone_id r.to_model_zone_id
        r.userclass).map ProbRow.proportion).sum = 1)
    (hfs : ∀ r ∈ dm0, ∀ p ∈ probMatches probs r.from_model_zone_id
        r.to_model_zone_id r.userclass, p.from_stn_zone_id ≠ 0) :
    ((prepare_stn2stn_matrix_tohome dm0 probs distMX stnTLC).map MxRow.demand).sum
      = (dm0.map DemandRow.demand).sum := by
  unfold prepare_stn2stn_matrix_tohome
  rw [stn_attach_total distMX stnTLC _
    (group_stn_keys_fs _ (join_probs_tohome_fs dm0 probs hfs))]
  rw [group_stn_total]
  exact join_probs_tohome_total probs dm0 hsum

/-- C6: conservation under no growth.  When every demand row's allocation
finds split probabilities summing to 1 over non-zero stations, every
classified row finds a ticket split summing to 1, and every resolved growth
rate (after the factor-table update, including the 1.0 default for
unmatched factors) equals 1, the summed output demand of the segment equals
the summed input demand — for both preparation variants and both growth
methods; demand is only ever scaled by exactly one resolved rate. -/
theorem conservation_no_growth (tohome : Bool) (method : ℕ) (dm : List DemandRow)
    (probs : List ProbRow) (distMX : List DistRow) (stnTLC : List TlcRow)
    (edge_flows : List FlowRow) (flows_lookup : List FlowLookupRow)
    (ticket_splits : List TicketSplitRow) (edgeFactors : List FactorRow)
    (hpos : ∀ r ∈ dm, 0 ≤ r.demand)
    (hprob : ∀ r ∈ dm, 0 < r.demand →
      ((probMatches probs r.from_model_zone_id r.to_model_zone_id
          r.userclass).map ProbRow.proportion).sum = 1
      ∧ ∀ p ∈ probMatches probs r.from_model_zone_id r.to_model_zone_id r.userclass,
          p.from_stn_zone_id ≠ 0)
    (hsplit : ∀ x ∈ classified_matrix tohome dm probs distMX stnTLC edge_flows
        flows_lookup,
        ∃ s, split_lookup ticket_splits x.tag_flow x.purpose = some s
          ∧ s.F + s.R + s.S = 1)
    (hrate : ∀ m ∈ melt (segment_mx tohome dm probs distMX stnTLC edge_flows
        flows_lookup ticket_splits),
        method1_rate (augment_step edgeFactors (segment_mx tohome dm probs distMX
          stnTLC edge_flows flows_lookup ticket_splits)) m = 1
        ∧ method2_rate (augment_step edgeFactors (segment_mx tohome dm probs distMX
          stnTLC edge_flows flows_lookup ticket_splits)) m = 1) :
    ((process_segment tohome method dm probs distMX stnTLC edge_flows flows_lookup
        ticket_splits edgeFactors).map ZoneRow.n_demand).sum
      = (dm.map DemandRow.demand).sum := by
  have hdm0sum : ∀ r ∈ dm.filter (fun r => decide (r.demand > 0)),
      ((probMatches probs r.from_model_zone_id r.to_model_zone_id
        r.userclass).map ProbRow.proportion).sum = 1 := by
    intro r hr
    have hd : r.demand > 0 := by
      have h1 := (List.mem_filter.mp hr).2
      simpa using h1
    exact (hprob r (List.mem_of_mem_filter hr) hd).1
  have hdm0fs : ∀ r ∈ dm.filter (fun r => decide (r.demand > 0)),
      ∀ p ∈ probMatches probs r.from_model_zone_id r.to_model_zone_id r.userclass,
        p.from_stn_zone_id ≠ 0 := by
    intro r hr
    have hd : r.demand > 0 := by
      have h1 := (List.mem_filter.mp hr).2
      simpa using h1
    exact (hprob r (List.mem_of_mem_filter hr) hd).2
  have hfilter_total : ((dm.filter (fun r => decide (r.demand > 0))).map
      DemandRow.demand).sum = (dm.map DemandRow.demand).sum := by
    rw [← sum_filter_add_sum_filter_not dm (fun r => decide (r.demand > 0))
      DemandRow.demand]
    have hzero : ((dm.filter (fun r => !(decide (r.demand > 0)))).map
        DemandRow.demand).sum = 0 := by
      apply List.sum_eq_zero
      intro q hq
      rcases List.mem_map.mp hq with ⟨r, hr, rfl⟩
      have h1 := (List.mem_filter.mp hr).2
      have h2 := hpos r (List.mem_of_mem_filter hr)
      simp only [Bool.not_eq_true', decide_eq_false_iff_not, not_lt] at h1
      exact le_antisymm h1 h2
    rw [hzero, add_zero]
  have hprep : ((prepared_matrix tohome dm probs distMX stnTLC).map
      MxRow.demand).sum = (dm.map DemandRow.demand).sum := by
    unfold prepared_matrix
    cases tohome with
    | false =>
      rw [if_neg (by simp)]
      rw [prepare_total_from _ probs distMX stnTLC hdm0sum hdm0fs]
      exact hfilter_total
    | true =>
      rw [if_pos rfl]
      rw [prepare_total_tohome _ probs distMX stnTLC hdm0sum hdm0fs]
      exact hfilter_total
  have hclstotal : ((classified_matrix tohome dm probs distMX stnTLC edge_flows
      flows_lookup).map MxRow.demand).sum = (dm.map DemandRow.demand).sum := by
    unfold classified_matrix
    rw [classify_demand]
    exact hprep
  have hmain : osum ((melt (segment_mx tohome dm probs distMX stnTLC edge_flows
      flows_lookup ticket_splits)).map MeltRow.t_demand)
      = (dm.map DemandRow.demand).sum := by
    rw [melt_t_total]
    unfold segment_mx
    rw [split_total ticket_splits _ hsplit]
    exact hclstotal
  unfold process_segment
  by_cases hm : method = 1
  · rw [if_pos hm, zone2zone_n_total, method1_map_n,
      osum_map_rate_one (melt (segment_mx tohome dm probs distMX stnTLC edge_flows
        flows_lookup ticket_splits))
        (method1_rate (augment_step edgeFactors (segment_mx tohome dm probs distMX
          stnTLC edge_flows flows_lookup ticket_splits)))
        (fun m hmm => (hrate m hmm).1)]
    exact hmain
  · rw [if_neg hm, zone2zone_n_total, method2_map_n,
      osum_map_rate_one (melt (segment_mx tohome dm probs distMX stnTLC edge_flows
        flows_lookup ticket_splits))
        (method2_rate (augment_step edgeFactors (segment_mx tohome dm probs distMX
          stnTLC edge_flows flows_lookup ticket_splits)))
        (fun m hmm => (hrate m hmm).2)]
    exact hmain

/-! Concrete one-movement instance for the conservation witness. -/

def dmW6 : List DemandRow :=
  [{ from_model_zone_id := 1, to_model_zone_id := 2, userclass := 1, demand := 5 }]

def probsW6 : List ProbRow :=
  [{ from_model_zone_id := 1, to_model_zone_id := 2, userclass := 1,
     from_stn_zone_id := 3, to_stn_zone_id := 4, proportion := 1 }]

def tlcW6 : List TlcRow :=
  [{ stn_zone_id := 3, stationcode := "AAA" },
   { stn_zone_id := 4, stationcode := "BBB" }]

def flowsW6 : List FlowRow :=
  [{ o_tlc := "AAA", d_tlc := "BBB", flowCatName := "FlowX" }]

def flowsLkW6 : List FlowLookupRow :=
  [{ flowCatName := "FlowX", tag_nondist := "TagY" }]

def splitsW6 : List TicketSplitRow :=
  [{ tag_flow := "TagY", purpose := "Business", F := 1/2, R := 1/4, S := 1/4 }]

/-- Witness for C6 on a one-movement segment with an empty factor table
(every rate defaults to 1). -/
theorem conservation_no_growth_witness :
    (∀ r ∈ dmW6, 0 ≤ r.demand)
    ∧ (∀ r ∈ dmW6, 0 < r.demand →
        ((probMatches probsW6 r.from_model_zone_id r.to_model_zone_id
            r.userclass).map ProbRow.proportion).sum = 1
        ∧ ∀ p ∈ probMatches probsW6 r.from_model_zone_id r.to_model_zone_id
            r.userclass, p.from_stn_zone_id ≠ 0)
    ∧ (∀ x ∈ classified_matrix false dmW6 probsW6 [] tlcW6 flowsW6 flowsLkW6,
        ∃ s, split_lookup splitsW6 x.tag_flow x.purpose = some s
          ∧ s.F + s.R + s.S = 1)
    ∧ (∀ m ∈ melt (segment_mx false dmW6 probsW6 [] tlcW6 flowsW6 flowsLkW6
          splitsW6),
        method1_rate (augment_step [] (segment_mx false dmW6 probsW6 [] tlcW6
          flowsW6 flowsLkW6 splitsW6)) m = 1
        ∧ method2_rate (augment_step [] (segment_mx false dmW6 probsW6 [] tlcW6
          flowsW6 flowsLkW6 splitsW6)) m = 1)
    ∧ ((process_segment false 1 dmW6 probsW6 [] tlcW6 flowsW6 flowsLkW6 splitsW6
        []).map ZoneRow.n_demand).sum = (dmW6.map DemandRow.demand).sum := by
  have hpos : ∀ r ∈ dmW6, 0 ≤ r.demand := by
    intro r hr
    have h := List.mem_singleton.mp hr
    subst h
    norm_num
  have hprob : ∀ r ∈ dmW6, 0 < r.demand →
      ((probMatches probsW6 r.from_model_zone_id r.to_model_zone_id
          r.userclass).map ProbRow.proportion).sum = 1
      ∧ ∀ p ∈ probMatches probsW6 r.from_model_zone_id r.to_model_zone_id
          r.userclass, p.from_stn_zone_id ≠ 0 := by
    intro r hr _
    have h := List.mem_singleton.mp hr
    subst h
    constructor
    · simp [probMatches, probsW6]
    · decide
  have hsplit : ∀ x ∈ classified_matrix false dmW6 probsW6 [] tlcW6 flowsW6
      flowsLkW6,
      ∃ s, split_lookup splitsW6 x.tag_flow x.purpose = some s
        ∧ s.F + s.R + s.S = 1 := by
    intro x hx
    have h := List.mem_singleton.mp hx
    subst h
    exact ⟨{ tag_flow := "TagY", purpose := "Business", F := 1/2, R := 1/4, S := 1/4 },
      rfl, by norm_num⟩
  have hrate : ∀ m ∈ melt (segment_mx false dmW6 probsW6 [] tlcW6 flowsW6
      flowsLkW6 splitsW6),
      method1_rate (augment_step [] (segment_mx false dmW6 probsW6 [] tlcW6
        flowsW6 flowsLkW6 splitsW6)) m = 1
      ∧ method2_rate (augment_step [] (segment_mx false dmW6 probsW6 [] tlcW6
        flowsW6 flowsLkW6 splitsW6)) m = 1 := by
    intro m _
    exact ⟨rfl, rfl⟩
  exact ⟨hpos, hprob, hsplit, hrate,
    conservation_no_growth false 1 dmW6 probsW6 [] tlcW6 flowsW6 flowsLkW6
      splitsW6 [] hpos hprob hsplit hrate⟩

end EdgeForecast
